import Mathlib

/-!
# AutoCLI message-command synthesis (`client/v2/autocli/msg.go`)

A shallow embedding of `Builder.AddMsgServiceCommands`, `Builder.BuildMsgMethodCommand`,
`Builder.handleGovProposal` and `cloneMessage`.

Conventions of the embedding.

* A `*cobra.Command` graph is a tree value (`Command`).  A Go pointer to a child that is
  mutated in place is modelled by writing the new value of the child back at the position
  where it was found (`Command.setSubCommand`).
* A Go `map` that is ranged over is an association list; the order of the list is the order
  in which one run enumerates the entries.
* A Go `error` is a structured value (`Err`): one constructor per `fmt.Errorf` site, carrying
  the arguments of the format string.
* A run-time panic (failed type assertion, nil field descriptor) is the outcome `panic`.
* The collaborators that are not part of `msg.go` (schema registry, version policy, address
  codecs, flag reader, wire encoding, transaction pipeline) are fields of `Builder`.
* Calls to collaborators are recorded: `BuildMsgMethodCommand` calls in the `calls` log of the
  tree builder, and the steps of an execution closure in its `trace`.
-/

namespace AutoCLI

/-! ## Data model -/

/-- One RPC method of a service (`protoreflect.MethodDescriptor`). -/
structure MethodDescriptor where
  name : String
  input : String
  output : String
deriving DecidableEq, Repr

/-- A named RPC service with its ordered methods (`protoreflect.ServiceDescriptor`). -/
structure ServiceDescriptor where
  fullName : String
  methods : List MethodDescriptor
deriving DecidableEq, Repr

/-- A schema found in the registry by `FindDescriptorByName`: a service, or a schema of
another kind (a message, an enum, ...), of which only the name is kept. -/
inductive Descriptor where
  | service (s : ServiceDescriptor)
  | message (fullName : String)
deriving DecidableEq, Repr

/-- Per-method override record (`autocliv1.RpcCommandOptions`); the zero value is the record
used when a method has no override. -/
structure RpcCommandOptions where
  RpcMethod : String := ""
  Short : String := ""
  Skip : Bool := false
  GovProposal : Bool := false
deriving DecidableEq, Repr

/-- A node of the command descriptor tree (`autocliv1.ServiceCommandDescriptor`).
`SubCommands` is a Go map: its list order is the enumeration order of one run. -/
inductive ServiceCommandDescriptor where
  | mk (Service : String) (RpcCommandOptions : List RpcCommandOptions)
      (SubCommands : List (String × ServiceCommandDescriptor))
      (EnhanceCustomCommand : Bool) (Short : String)
deriving Repr

namespace ServiceCommandDescriptor

/-- Field `Service`. -/
def Service : ServiceCommandDescriptor → String
  | mk s _ _ _ _ => s

/-- Field `RpcCommandOptions`. -/
def Options : ServiceCommandDescriptor → List RpcCommandOptions
  | mk _ o _ _ _ => o

/-- Field `SubCommands`. -/
def SubCommands : ServiceCommandDescriptor → List (String × ServiceCommandDescriptor)
  | mk _ _ s _ _ => s

/-- Field `EnhanceCustomCommand`. -/
def EnhanceCustomCommand : ServiceCommandDescriptor → Bool
  | mk _ _ _ e _ => e

/-- Field `Short`. -/
def Short : ServiceCommandDescriptor → String
  | mk _ _ _ _ s => s

end ServiceCommandDescriptor

/-- Errors returned by `msg.go`, one constructor per `fmt.Errorf` site with the arguments of
its format string (`failedToSetSigner` is the site of line 154, with `%v`, and
`failedToSetSignerQuoted` the site of line 210, with `%q`), and `external` for an error value
produced by a collaborator. -/
inductive Err where
  | external (msg : String)
  | cantFindService (service : String) (cause : Err)
  | rpcMethodNotFound (methodName : String) (serviceFullName : String)
  | failedToSetSigner (signerFromFlag : List Nat) (cause : Err)
  | failedToSetSignerQuoted (signerFromFlag : List Nat) (cause : Err)
  | failedToCloneMessage (cause : Err)
  | failedToConvertGovAuthority (cause : Err)
  | failedToSetMsgInProposal (cause : Err)
deriving DecidableEq, Repr

/-- How a call ends: normal return without error, return of an error, or a panic. -/
inductive Outcome where
  | ok
  | error (e : Err)
  | panic (reason : String)
deriving DecidableEq, Repr

/-- The `RunE` closure of a command: none, the `validateCmd` of a grouping command, a
hand-written one, or the `execFunc` closure built by `BuildMsgMethodCommand`, which captures
the method descriptor and its options. -/
inductive RunE where
  | absent
  | validateCmd
  | custom (tag : String)
  | execFunc (descriptor : MethodDescriptor) (options : RpcCommandOptions)
deriving DecidableEq, Repr

/-- A `*cobra.Command`: its name (what `Name()` returns; `Use` strings are single words),
help text, execution closure, `SilenceUsage`, registered flag names and child commands. -/
inductive Command where
  | mk (name : String) (short : String) (run : RunE) (silenceUsage : Bool)
      (flags : List String) (commands : List Command)
deriving Repr

namespace Command

/-- Result of `Name()`. -/
def name : Command → String
  | mk n _ _ _ _ _ => n

/-- Field `Short`. -/
def short : Command → String
  | mk _ s _ _ _ _ => s

/-- Field `RunE`. -/
def run : Command → RunE
  | mk _ _ r _ _ _ => r

/-- Field `SilenceUsage`. -/
def silenceUsage : Command → Bool
  | mk _ _ _ s _ _ => s

/-- Names of the flags registered on the command. -/
def flags : Command → List String
  | mk _ _ _ _ f _ => f

/-- Result of `Commands()`: the attached children. -/
def commands : Command → List Command
  | mk _ _ _ _ _ c => c

/-- Method `AddCommand` of cobra: appends the child to the list of children; it performs
no check on the names already present. -/
def AddCommand : Command → Command → Command
  | mk n s r su f cs, x => mk n s r su f (cs ++ [x])

/-- Registers more flags on the command (`cmd.Flags().Bool(...)`, `AddGovPropFlagsToCmd`). -/
def addFlags : Command → List String → Command
  | mk n s r su f cs, extra => mk n s r su (f ++ extra) cs

/-- Assignment `cmd.SilenceUsage = v`. -/
def setSilenceUsage : Command → Bool → Command
  | mk n s r _ f cs, v => mk n s r v f cs

/-- Replaces the first element named `n` of a list of children by `x`. -/
def setFirst (n : String) (x : Command) : List Command → List Command
  | [] => []
  | c :: cs => if c.name = n then x :: cs else c :: setFirst n x cs

/-- Write-back of a child that was mutated through the pointer returned by
`findSubCommand cmd n`: the first child named `n` takes the value `x`. -/
def setSubCommand : Command → String → Command → Command
  | mk nm s r su f cs, n, x => mk nm s r su f (setFirst n x cs)

/-- The nodes reached from `c` by following a path of child names (`[]` reaches `c`). -/
def nodesAt : List String → Command → List Command
  | [], c => [c]
  | n :: p, c => (c.commands.filter (fun ch => ch.name = n)).flatMap (nodesAt p)

/-- Whether some node is reachable from `c` at the path of child names. -/
def hasPath (c : Command) (p : List String) : Bool :=
  !(nodesAt p c).isEmpty

/-- Two values describe the same node: same name, help text, execution closure,
`SilenceUsage` and flags (the children may differ). -/
def sameNode (x y : Command) : Prop :=
  y.name = x.name ∧ y.short = x.short ∧ y.run = x.run ∧
    y.silenceUsage = x.silenceUsage ∧ y.flags = x.flags

mutual
/-- No two children of any node of the tree share a name. -/
def uniqueSiblings : Command → Bool
  | mk _ _ _ _ _ cs => decide ((cs.map name).Nodup) && uniqueSiblingsList cs
/-- The same over a list of sibling subtrees. -/
def uniqueSiblingsList : List Command → Bool
  | [] => true
  | c :: cs => uniqueSiblings c && uniqueSiblingsList cs
end

end Command

/-- Modelled from the spec: `findSubCommand` (defined outside `msg.go`), "reuse an existing
same-named child if present": the first child of `cmd` whose name is `subCmdName`. -/
def findSubCommand (cmd : Command) (subCmdName : String) : Option Command :=
  cmd.commands.find? (fun c => c.name = subCmdName)

/-- Modelled from the spec: `topLevelCmd` (defined outside `msg.go`): a new grouping command
with the given name and help text, no children, running `validateCmd`. -/
def topLevelCmd (use short : String) : Command :=
  Command.mk use short RunE.validateCmd false [] []

/-- Name, help text and flags that `buildMethodCommandCommon` derives for a method. -/
structure CommandShape where
  name : String
  short : String
  flags : List String
deriving DecidableEq, Repr

/-- One recorded call `BuildMsgMethodCommand(descriptor, options)`. -/
structure BuildCall where
  descriptor : MethodDescriptor
  options : RpcCommandOptions
deriving DecidableEq, Repr

/-! ## Messages, proposals and the collaborators of the builder -/

/-- Scalar annotation of a field as read by `flag.GetScalarType`: the validator-address
type, the consensus-address type, or any other scalar type. -/
inductive ScalarType where
  | validatorAddressString
  | consensusAddressString
  | other (name : String)
deriving DecidableEq, Repr

/-- A field of a message shape; `scalar` is `none` when `GetScalarType` reports `ok = false`. -/
structure FieldDescriptor where
  name : String
  scalar : Option ScalarType
deriving DecidableEq, Repr

/-- A message shape; `signer` is the field name returned by `flag.GetSignerFieldName`. -/
structure MessageDescriptor where
  fullName : String
  fields : List FieldDescriptor
  signer : String
deriving DecidableEq, Repr

/-- A message instance: its shape and the string values of the fields that are set. -/
structure Message where
  descriptor : MessageDescriptor
  values : List (String × String)
deriving DecidableEq, Repr

namespace Message

/-- Value `input.Get(fd).String()`; an unset field reads as the empty string. -/
def Get (m : Message) (fd : FieldDescriptor) : String :=
  (m.values.lookup fd.name).getD ""

/-- Mutation `input.Set(fd, protoreflect.ValueOfString(v))`. -/
def Set (m : Message) (fd : FieldDescriptor) (v : String) : Message :=
  { m with values := (fd.name, v) :: m.values.filter (fun kv => kv.1 ≠ fd.name) }

/-- Lookup `input.Descriptor().Fields().ByName(GetSignerFieldName(input.Descriptor()))`;
`none` is the nil field descriptor. -/
def signerField (m : Message) : Option FieldDescriptor :=
  m.descriptor.fields.find? (fun f => f.name = m.descriptor.signer)

end Message

/-- The three address codecs held by the builder. -/
inductive Codec where
  | AddressCodec
  | ValidatorAddressCodec
  | ConsensusAddressCodec
deriving DecidableEq, Repr

/-- The ambient submission context; `fromAddress` is `GetFromAddress().Bytes()`. -/
structure ClientCtx where
  fromAddress : List Nat
  label : String
deriving DecidableEq, Repr

/-- The flag set of one invocation; `noProposal` is the value of the no-proposal flag when
it is registered on the command, `none` when `GetBool` fails because it is not. -/
structure FlagSet where
  noProposal : Option Bool
  values : List (String × String)
deriving DecidableEq, Repr

/-- A governance proposal: the proposer, the content read from the proposal flags and the
wrapped messages. -/
structure Proposal where
  proposer : String
  content : String
  messages : List Message
deriving DecidableEq, Repr

/-- What is handed to the transaction pipeline: a bare message or a proposal. -/
inductive Payload where
  | msg (m : Message)
  | proposal (p : Proposal)
deriving DecidableEq, Repr

/-- The builder: the collaborators `msg.go` calls. -/
structure Builder where
  /-- Registry lookup `FileResolver.FindDescriptorByName`. -/
  FindDescriptorByName : String → Except Err Descriptor
  /-- Policy `util.IsSupportedVersion`. -/
  IsSupportedVersion : MethodDescriptor → Bool
  /-- Name, help text and flags derived by `buildMethodCommandCommon`, or its error. -/
  methodCommandShape : MethodDescriptor → RpcCommandOptions → Except Err CommandShape
  /-- Hook `AddTxConnFlags`, `none` when nil. -/
  AddTxConnFlags : Option (Command → Command)
  /-- Flags registered by `govcli.AddGovPropFlagsToCmd`. -/
  govPropFlags : List String
  /-- Method `BytesToString` of each address codec. -/
  BytesToString : Codec → List Nat → Except Err String
  /-- Bytes of `authtypes.NewModuleAddress(govtypes.ModuleName)`. -/
  govModuleAddress : List Nat
  /-- Reader `govcli.ReadGovPropCmdFlags`. -/
  ReadGovPropCmdFlags : String → FlagSet → Except Err Proposal
  /-- Failure, if any, of packing the messages inside `proposal.SetMsgs`. -/
  packMsgs : List Message → Option Err
  /-- Wire encoding `proto.Marshal`. -/
  Marshal : Message → Except Err (List Nat)
  /-- Wire decoding `proto.Unmarshal` into a fresh message of the given shape. -/
  Unmarshal : MessageDescriptor → List Nat → Except Err Message
  /-- Pipeline `clienttx.GenerateOrBroadcastTxCLI`; `none` is a nil error. -/
  GenerateOrBroadcastTxCLI : ClientCtx → FlagSet → Payload → Option Err

/-- Modelled from the spec: the constant `flags.FlagNoProposal` (defined outside `msg.go`),
the boolean opt-out flag `--no-proposal`. -/
def FlagNoProposal : String := "no-proposal"

/-! ## Command tree construction -/

/-- Modelled from the spec: `buildMethodCommandCommon` (defined outside `msg.go`): one new
command without children whose closure captures the method descriptor and its options. -/
def buildMethodCommandCommon (b : Builder) (descriptor : MethodDescriptor)
    (options : RpcCommandOptions) (execFunc : RunE) : Except Err Command :=
  match b.methodCommandShape descriptor options with
  | .error e => .error e
  | .ok shape => .ok (Command.mk shape.name shape.short execFunc false shape.flags [])

/-- Tree-building part of `Builder.BuildMsgMethodCommand`: the command whose closure is
`execFunc`, with the connection flags, `SilenceUsage` and, for a governance-gated method,
the proposal flags and the no-proposal flag. -/
def BuildMsgMethodCommand (b : Builder) (descriptor : MethodDescriptor)
    (options : RpcCommandOptions) : Except Err Command :=
  match buildMethodCommandCommon b descriptor options (RunE.execFunc descriptor options) with
  | .error e => .error e
  | .ok cmd =>
    let cmd1 := match b.AddTxConnFlags with
      | some f => f cmd
      | none => cmd
    let cmd2 := cmd1.setSilenceUsage true
    .ok (if options.GovProposal then cmd2.addFlags (b.govPropFlags ++ [FlagNoProposal]) else cmd2)

/-- State of the tree builder when a call ends: the command as mutated so far, the log of
`BuildMsgMethodCommand` calls made so far, and how the call ended. -/
structure Built where
  cmd : Command
  calls : List BuildCall
  out : Outcome

/-- The Go map `rpcOptMap`: an assignment is a new head, a lookup finds the latest
assignment to the key. -/
abbrev RpcOptMap := List (String × RpcCommandOptions)

/-- The loop over `cmdDescriptor.RpcCommandOptions` (lines 75-84): every entry must name a
method of the service; the entry is stored under its method name. -/
def buildRpcOptMap (service : ServiceDescriptor) :
    List RpcCommandOptions → RpcOptMap → Except Err RpcOptMap
  | [], rpcOptMap => .ok rpcOptMap
  | option :: rest, rpcOptMap =>
    match service.methods.find? (fun m => m.name = option.RpcMethod) with
    | none => .error (Err.rpcMethodNotFound option.RpcMethod service.fullName)
    | some _ => buildRpcOptMap service rest ((option.RpcMethod, option) :: rpcOptMap)

/-- Lookup `rpcOptMap[methodDescriptor.Name()]` with the zero-value default (lines 88-91). -/
def methodOptions (rpcOptMap : RpcOptMap) (md : MethodDescriptor) : RpcCommandOptions :=
  (rpcOptMap.lookup md.name).getD {}

/-- The loop over the methods of the service (lines 86-113). -/
def methodLoop (b : Builder) (rpcOptMap : RpcOptMap) :
    List MethodDescriptor → Command → List BuildCall → Built
  | [], cmd, calls => ⟨cmd, calls, Outcome.ok⟩
  | methodDescriptor :: rest, cmd, calls =>
    let methodOpts := methodOptions rpcOptMap methodDescriptor
    if methodOpts.Skip then methodLoop b rpcOptMap rest cmd calls
    else if !b.IsSupportedVersion methodDescriptor then methodLoop b rpcOptMap rest cmd calls
    else
      match BuildMsgMethodCommand b methodDescriptor methodOpts with
      | .error e => ⟨cmd, calls ++ [⟨methodDescriptor, methodOpts⟩], Outcome.error e⟩
      | .ok methodCmd =>
        if (findSubCommand cmd methodCmd.name).isSome then
          methodLoop b rpcOptMap rest cmd (calls ++ [⟨methodDescriptor, methodOpts⟩])
        else
          methodLoop b rpcOptMap rest (cmd.AddCommand methodCmd)
            (calls ++ [⟨methodDescriptor, methodOpts⟩])

/-- The part of `AddMsgServiceCommands` after the sub-command loop (lines 63-115): the
empty-service return, the registry lookup, the unchecked conversion to a service descriptor,
the options loop and the method loop. -/
def serviceCommands (b : Builder) (service : String) (options : List RpcCommandOptions)
    (cmd : Command) (calls : List BuildCall) : Built :=
  if service = "" then ⟨cmd, calls, Outcome.ok⟩
  else
    match b.FindDescriptorByName service with
    | .error e => ⟨cmd, calls, Outcome.error (Err.cantFindService service e)⟩
    | .ok (Descriptor.message _) =>
      ⟨cmd, calls, Outcome.panic "interface conversion: not a protoreflect.ServiceDescriptor"⟩
    | .ok (Descriptor.service svc) =>
      match buildRpcOptMap svc options [] with
      | .error e => ⟨cmd, calls, Outcome.error e⟩
      | .ok rpcOptMap => methodLoop b rpcOptMap svc.methods cmd calls

/-- Help text of a synthesized sub-command (lines 46-49). -/
def subCommandShort (subCmdDescriptor : ServiceCommandDescriptor) : String :=
  if subCmdDescriptor.Short = "" then
    "Tx commands for the " ++ subCmdDescriptor.Service ++ " service"
  else subCmdDescriptor.Short

mutual
/-- The method `Builder.AddMsgServiceCommands` (lines 42-116), on the command `cmd` with the
call log `calls`. -/
def AddMsgServiceCommands (b : Builder) (cmd : Command) :
    ServiceCommandDescriptor → List BuildCall → Built
  | ServiceCommandDescriptor.mk service options subCommands _ _, calls =>
    match subCommandsLoop b cmd subCommands calls with
    | ⟨cmd1, calls1, Outcome.ok⟩ => serviceCommands b service options cmd1 calls1
    | r => r
/-- The loop over `cmdDescriptor.SubCommands` (lines 43-61), in the order of the list. -/
def subCommandsLoop (b : Builder) (cmd : Command) :
    List (String × ServiceCommandDescriptor) → List BuildCall → Built
  | [], calls => ⟨cmd, calls, Outcome.ok⟩
  | (cmdName, subCmdDescriptor) :: rest, calls =>
    let found := findSubCommand cmd cmdName
    let subCmd := match found with
      | some c => c
      | none => topLevelCmd cmdName (subCommandShort subCmdDescriptor)
    let r := AddMsgServiceCommands b subCmd subCmdDescriptor calls
    let cmd1 := if found.isSome then cmd.setSubCommand cmdName r.cmd else cmd
    match r.out with
    | Outcome.ok =>
      subCommandsLoop b
        (if subCmdDescriptor.EnhanceCustomCommand then cmd1 else cmd1.AddCommand r.cmd)
        rest r.calls
    | out => ⟨cmd1, r.calls, out⟩
end

/-! ## Execution closure of a method command -/

/-- One recorded step of an execution closure: a call to a collaborator with its arguments. -/
inductive Event where
  | bytesToString (codec : Codec) (bytes : List Nat)
  | readGovPropCmdFlags (proposer : String)
  | cloneMessage (src : Message)
  | setMsgs (msgs : List Message)
  | generateOrBroadcastTxCLI (clientCtx : ClientCtx) (payload : Payload)
deriving DecidableEq, Repr

/-- State when an execution closure ends: the steps taken in order, the input message as the
closure left it, and how the closure ended. -/
structure Executed where
  trace : List Event
  input : Message
  out : Outcome
deriving DecidableEq, Repr

/-- The error value returned by the pipeline as the outcome of the closure. -/
def pipelineOutcome : Option Err → Outcome
  | none => Outcome.ok
  | some e => Outcome.error e

/-- The function `cloneMessage` (lines 235-241): marshal the source, unmarshal the bytes
into the fresh destination message of shape `dst`. -/
def cloneMessage (b : Builder) (dst : MessageDescriptor) (src : Message) : Except Err Message :=
  match b.Marshal src with
  | .error e => .error e
  | .ok bz => b.Unmarshal dst bz

/-- Modelled from the spec: `SetMsgs` of the proposal type (defined outside `msg.go`),
"insert it as the sole wrapped message of the proposal"; it fails when packing fails. -/
def SetMsgs (b : Builder) (proposal : Proposal) (msgs : List Message) : Except Err Proposal :=
  match b.packMsgs msgs with
  | some e => .error e
  | none => .ok { proposal with messages := msgs }

/-- The method `Builder.handleGovProposal` (lines 193-231). -/
def handleGovProposal (b : Builder) (flags : FlagSet) (input : Message) (clientCtx : ClientCtx)
    (addressCodec : Codec) (fd : Option FieldDescriptor) : Executed :=
  let t1 := [Event.bytesToString addressCodec b.govModuleAddress]
  match b.BytesToString addressCodec b.govModuleAddress with
  | .error e => ⟨t1, input, Outcome.error (Err.failedToConvertGovAuthority e)⟩
  | .ok authority =>
    match fd with
    | none => ⟨t1, input, Outcome.panic "Set on a nil field descriptor"⟩
    | some f =>
      let input1 := input.Set f authority
      let t2 := t1 ++ [Event.bytesToString addressCodec clientCtx.fromAddress]
      match b.BytesToString addressCodec clientCtx.fromAddress with
      | .error e =>
        ⟨t2, input1, Outcome.error (Err.failedToSetSignerQuoted clientCtx.fromAddress e)⟩
      | .ok signer =>
        let t3 := t2 ++ [Event.readGovPropCmdFlags signer]
        match b.ReadGovPropCmdFlags signer flags with
        | .error e => ⟨t3, input1, Outcome.error e⟩
        | .ok proposal =>
          let t4 := t3 ++ [Event.cloneMessage input1]
          match cloneMessage b input1.descriptor input1 with
          | .error e => ⟨t4, input1, Outcome.error (Err.failedToCloneMessage e)⟩
          | .ok msg =>
            let t5 := t4 ++ [Event.setMsgs [msg]]
            match SetMsgs b proposal [msg] with
            | .error e => ⟨t5, input1, Outcome.error (Err.failedToSetMsgInProposal e)⟩
            | .ok proposal1 =>
              ⟨t5 ++ [Event.generateOrBroadcastTxCLI clientCtx (Payload.proposal proposal1)],
                input1,
                pipelineOutcome (b.GenerateOrBroadcastTxCLI clientCtx flags
                  (Payload.proposal proposal1))⟩

/-- The codec chosen on the normal path for an unset signer field (lines 140-149). -/
def signerCodec (fd : FieldDescriptor) : Codec :=
  match fd.scalar with
  | some ScalarType.validatorAddressString => Codec.ValidatorAddressCodec
  | some ScalarType.consensusAddressString => Codec.ConsensusAddressCodec
  | _ => Codec.AddressCodec

/-- The end of the normal path (lines 160-168): bridge the message and hand it to the
pipeline. -/
def submitMsg (b : Builder) (flags : FlagSet) (clientCtx : ClientCtx) (input : Message)
    (trace : List Event) : Executed :=
  match cloneMessage b input.descriptor input with
  | .error e =>
    ⟨trace ++ [Event.cloneMessage input], input, Outcome.error (Err.failedToCloneMessage e)⟩
  | .ok msg =>
    ⟨trace ++ [Event.cloneMessage input,
        Event.generateOrBroadcastTxCLI clientCtx (Payload.msg msg)],
      input, pipelineOutcome (b.GenerateOrBroadcastTxCLI clientCtx flags (Payload.msg msg))⟩

/-- The closure `execFunc` of `Builder.BuildMsgMethodCommand` (lines 120-169).
`getClientTxContext` is the result of `client.GetClientTxContext(cmd)` and `flags` the flag
set `cmd.Flags()` of the invocation. -/
def execFunc (b : Builder) (options : RpcCommandOptions)
    (getClientTxContext : Except Err ClientCtx) (flags : FlagSet) (input : Message) : Executed :=
  match getClientTxContext with
  | .error e => ⟨[], input, Outcome.error e⟩
  | .ok clientCtx =>
    let fd := input.signerField
    let addressCodec := Codec.AddressCodec
    let skipProposal := flags.noProposal.getD false
    if options.GovProposal && !skipProposal then
      handleGovProposal b flags input clientCtx addressCodec fd
    else
      match fd with
      | none => ⟨[], input, Outcome.panic "Get on a nil field descriptor"⟩
      | some f =>
        if input.Get f = "" then
          let codec := signerCodec f
          match b.BytesToString codec clientCtx.fromAddress with
          | .error e =>
            ⟨[Event.bytesToString codec clientCtx.fromAddress], input,
              Outcome.error (Err.failedToSetSigner clientCtx.fromAddress e)⟩
          | .ok signer =>
            submitMsg b flags clientCtx (input.Set f signer)
              [Event.bytesToString codec clientCtx.fromAddress]
        else submitMsg b flags clientCtx input []

/-! ## Observations used by the statements -/

/-- Whether a recorded step is a call of the transaction pipeline. -/
def Event.isPipelineCall : Event → Bool
  | Event.generateOrBroadcastTxCLI _ _ => true
  | _ => false

/-- Whether a recorded step failed: the collaborator returned an error at the recorded
arguments (the pipeline call is not one of the steps that precede submission). -/
def Event.failed (b : Builder) (flags : FlagSet) : Event → Bool
  | Event.bytesToString codec bytes =>
    match b.BytesToString codec bytes with
    | .error _ => true
    | .ok _ => false
  | Event.readGovPropCmdFlags proposer =>
    match b.ReadGovPropCmdFlags proposer flags with
    | .error _ => true
    | .ok _ => false
  | Event.cloneMessage src =>
    match AutoCLI.cloneMessage b src.descriptor src with
    | .error _ => true
    | .ok _ => false
  | Event.setMsgs msgs => (b.packMsgs msgs).isSome
  | Event.generateOrBroadcastTxCLI _ _ => false

/-- The codec the spec prescribes for an unset signer field, in the spec's words: the
validator codec when the scalar annotation marks a validator address, the consensus codec when
it marks a consensus address, the general codec by default. -/
def specSignerCodec (scalar : Option ScalarType) : Codec :=
  if scalar = some ScalarType.validatorAddressString then Codec.ValidatorAddressCodec
  else if scalar = some ScalarType.consensusAddressString then Codec.ConsensusAddressCodec
  else Codec.AddressCodec

/-- Whether an entry of `RpcCommandOptions` names no method of the service (`methods.ByName`
returns nil). -/
def namesNoMethod (service : ServiceDescriptor) (option : RpcCommandOptions) : Bool :=
  (service.methods.find? (fun m => m.name = option.RpcMethod)).isNone

/-- The last entry of `RpcCommandOptions` given for the method name, if any. -/
def lastOptionFor (options : List RpcCommandOptions) (methodName : String) :
    Option RpcCommandOptions :=
  options.reverse.find? (fun o => o.RpcMethod = methodName)

/-- Every node reachable in `a` at a path of names is reachable in `c` at the same path, as
the same node. -/
def Preserved (a c : Command) : Prop :=
  ∀ path x, x ∈ Command.nodesAt path a →
    ∃ y ∈ Command.nodesAt path c, Command.sameNode x y

/-- Two commands have the same set of reachable command paths. -/
def SamePaths (c1 c2 : Command) : Prop :=
  ∀ p : List String, c1.hasPath p = c2.hasPath p

/-- The command a sub-command entry works on (lines 44-51): the child found under the name,
or else a new grouping command. -/
def subCommandFor (cmd : Command) (cmdName : String)
    (subCmdDescriptor : ServiceCommandDescriptor) : Command :=
  match findSubCommand cmd cmdName with
  | some c => c
  | none => topLevelCmd cmdName (subCommandShort subCmdDescriptor)

/-- The command an entry of `SubCommands` produces from the parent `cmd`: the result of the
recursive call on the found or new sub-command. -/
def entryCommand (b : Builder) (cmd : Command) (cmdName : String)
    (subCmdDescriptor : ServiceCommandDescriptor) : Command :=
  (AddMsgServiceCommands b (subCommandFor cmd cmdName subCmdDescriptor) subCmdDescriptor []).cmd

/-- How the recursive call of an entry of `SubCommands` ends on the parent `cmd`. -/
def entryOutcome (b : Builder) (cmd : Command) (cmdName : String)
    (subCmdDescriptor : ServiceCommandDescriptor) : Outcome :=
  (AddMsgServiceCommands b (subCommandFor cmd cmdName subCmdDescriptor) subCmdDescriptor []).out

/-- The parent after one iteration of the sub-command loop whose recursive call ended well
(lines 44-60): the found child is written back, and the sub-command is attached unless the
entry has `EnhanceCustomCommand`. -/
def afterSubCommand (b : Builder) (cmd : Command) (cmdName : String)
    (subCmdDescriptor : ServiceCommandDescriptor) : Command :=
  let cmd1 := if (findSubCommand cmd cmdName).isSome then
      cmd.setSubCommand cmdName (entryCommand b cmd cmdName subCmdDescriptor)
    else cmd
  if subCmdDescriptor.EnhanceCustomCommand then cmd1
  else cmd1.AddCommand (entryCommand b cmd cmdName subCmdDescriptor)

/-- The contract of the message bridge (spec 4.5: the destination is equivalent to the
source under the wire encoding) as far as the signer field goes: whenever `cloneMessage`
succeeds on a message, the copy holds in the signer field what the source holds there. -/
def bridgeKeepsSigner (b : Builder) : Prop :=
  ∀ (src dst : Message) (fd : FieldDescriptor), src.signerField = some fd →
    cloneMessage b src.descriptor src = .ok dst → dst.Get fd = src.Get fd

/-! ## Two enumerations of the same descriptor -/

mutual
/-- The descriptor is a tree of maps: at every level the keys of `SubCommands` are pairwise
distinct. -/
def ServiceCommandDescriptor.keysDistinct : ServiceCommandDescriptor → Bool
  | ServiceCommandDescriptor.mk _ _ subs _ _ =>
    decide ((subs.map Prod.fst).Nodup) && ServiceCommandDescriptor.keysDistinctList subs
/-- The same over the entries of one map. -/
def ServiceCommandDescriptor.keysDistinctList :
    List (String × ServiceCommandDescriptor) → Bool
  | [] => true
  | (_, d) :: rest =>
    ServiceCommandDescriptor.keysDistinct d && ServiceCommandDescriptor.keysDistinctList rest
end

mutual
/-- Whether two descriptors are the same tree of maps, enumerated in possibly different
orders: the same fields, and the same keys in `SubCommands` bound to sub-descriptors that
are again the same up to the order of enumeration. -/
def sameMaps : ServiceCommandDescriptor → ServiceCommandDescriptor → Bool
  | ServiceCommandDescriptor.mk service options subs e short, d2 =>
    decide (service = d2.Service) && decide (options = d2.Options) &&
      decide (e = d2.EnhanceCustomCommand) && decide (short = d2.Short) &&
      sameEntries subs d2.SubCommands
/-- Whether two lists enumerate the same entries: every entry of the first has its key in
the second, bound to the same sub-descriptor up to order, and nothing else is in the second. -/
def sameEntries : List (String × ServiceCommandDescriptor) →
    List (String × ServiceCommandDescriptor) → Bool
  | [], l2 => l2.isEmpty
  | (k, d) :: rest, l2 =>
    match l2.find? (fun e2 => e2.1 = k) with
    | none => false
    | some e2 => sameMaps d e2.2 && sameEntries rest (l2.filter (fun e2 => e2.1 ≠ k))
end

/-! ## A concrete builder and concrete inputs -/

/-- The methods of the example service. -/
def exampleMethods : List MethodDescriptor :=
  [⟨"Send", "bank.MsgSend", "bank.MsgSendResponse"⟩,
    ⟨"Burn", "bank.MsgBurn", "bank.MsgBurnResponse"⟩,
    ⟨"UpdateParams", "bank.MsgUpdateParams", "bank.MsgUpdateParamsResponse"⟩]

/-- Human-readable part of the example address encoding of each codec. -/
def exampleHrp : Codec → String
  | Codec.AddressCodec => "addr1"
  | Codec.ValidatorAddressCodec => "valoper1"
  | Codec.ConsensusAddressCodec => "valcons1"

/-- A concrete builder: the registry knows the service `bank.Msg` and the message
`bank.MsgSend`; the method `Burn` has an unsupported version; an address is encoded as the
prefix of the codec followed by the characters of its bytes; a message travels on the wire as
the characters of its signer field. -/
def exampleBuilder : Builder where
  FindDescriptorByName := fun n =>
    if n = "bank.Msg" then .ok (Descriptor.service ⟨"bank.Msg", exampleMethods⟩)
    else if n = "bank.MsgSend" then .ok (Descriptor.message "bank.MsgSend")
    else .error (Err.external "not found")
  IsSupportedVersion := fun m => decide (m.name ≠ "Burn")
  methodCommandShape := fun m o => .ok ⟨m.name, o.Short, []⟩
  AddTxConnFlags := none
  govPropFlags := ["title", "summary", "deposit", "metadata"]
  BytesToString := fun c bz => .ok (exampleHrp c ++ String.mk (bz.map Char.ofNat))
  govModuleAddress := [103, 111, 118]
  ReadGovPropCmdFlags := fun proposer fl => .ok ⟨proposer, (fl.values.lookup "title").getD "", []⟩
  packMsgs := fun _ => none
  Marshal := fun m => .ok (((m.values.lookup m.descriptor.signer).getD "").toList.map Char.toNat)
  Unmarshal := fun d bz => .ok ⟨d, [(d.signer, String.mk (bz.map Char.ofNat))]⟩
  GenerateOrBroadcastTxCLI := fun _ _ _ => none

/-- Shape of the example message: its signer field is `authority`. -/
def exampleMsgDescriptor : MessageDescriptor :=
  ⟨"bank.MsgUpdateParams", [⟨"authority", some (ScalarType.other "cosmos.AddressString")⟩],
    "authority"⟩

/-- The signer field of the example message. -/
def exampleSignerField : FieldDescriptor :=
  ⟨"authority", some (ScalarType.other "cosmos.AddressString")⟩

/-- The acting account of the examples, encoded `addr1pro` by the general codec. -/
def exampleClientCtx : ClientCtx := ⟨[112, 114, 111], "from"⟩

/-- Options of a governance-gated method. -/
def exampleGovOptions : RpcCommandOptions :=
  { RpcMethod := "UpdateParams", GovProposal := true }

/-- The parent command of the examples: the root `tx` with one hand-written child `bank`. -/
def exampleTx : Command :=
  Command.mk "tx" "Transaction subcommands" RunE.absent false []
    [Command.mk "bank" "Bank transactions" (RunE.custom "bank") false [] []]

/-- A descriptor with two sub-commands, `bank` before `gov`. -/
def exampleDescriptor : ServiceCommandDescriptor :=
  ServiceCommandDescriptor.mk "" []
    [("bank", ServiceCommandDescriptor.mk "bank.Msg" [{ RpcMethod := "Burn", Skip := true }]
        [] true ""),
      ("gov", ServiceCommandDescriptor.mk "" []
        [("params", ServiceCommandDescriptor.mk "bank.Msg" [] [] false "Parameters"),
          ("legacy", ServiceCommandDescriptor.mk "" [] [] false "")] false "Governance")]
    false ""

/-- The same descriptor enumerated in another order: `gov` before `bank`, and inside `gov`,
`legacy` before `params`. -/
def exampleDescriptorReordered : ServiceCommandDescriptor :=
  ServiceCommandDescriptor.mk "" []
    [("gov", ServiceCommandDescriptor.mk "" []
        [("legacy", ServiceCommandDescriptor.mk "" [] [] false ""),
          ("params", ServiceCommandDescriptor.mk "bank.Msg" [] [] false "Parameters")]
        false "Governance"),
      ("bank", ServiceCommandDescriptor.mk "bank.Msg" [{ RpcMethod := "Burn", Skip := true }]
        [] true "")]
    false ""

/-- The example builder with a proposal-flag reader that fails. -/
def exampleBuilderBadFlags : Builder :=
  { exampleBuilder with
    ReadGovPropCmdFlags := fun _ _ => .error (Err.external "invalid deposit") }

/-! ## Theorems -/

/-! ### The execution closure -/

/-- C7: in every invocation of `handleGovProposal`, a failure of any of the five steps ends
the call with an error and without a pipeline call: when the codec fails on the governance
authority; when it fails on the acting address; when `ReadGovPropCmdFlags` fails; when
`cloneMessage` fails; when `SetMsgs` fails (each step taken at the arguments the earlier
steps produced). When all five steps succeed the pipeline is called exactly once, with the
complete proposal, and its result is the result of the call. Conversely the trace holds a
pipeline call only if all five steps succeeded, and then it is the five steps followed by
that one call; and a failed step in the trace means an error and no pipeline call. -/
theorem handleGovProposal_pipeline_only_after_all_steps (b : Builder) (flags : FlagSet)
    (input : Message) (clientCtx : ClientCtx) (addressCodec : Codec)
    (fd : Option FieldDescriptor) :
    (∀ e, b.BytesToString addressCodec b.govModuleAddress = .error e →
      (handleGovProposal b flags input clientCtx addressCodec fd).out =
        Outcome.error (Err.failedToConvertGovAuthority e) ∧
      (handleGovProposal b flags input clientCtx addressCodec fd).trace.filter
        Event.isPipelineCall = []) ∧
    (∀ authority f e, b.BytesToString addressCodec b.govModuleAddress = .ok authority →
      fd = some f →
      b.BytesToString addressCodec clientCtx.fromAddress = .error e →
      (handleGovProposal b flags input clientCtx addressCodec fd).out =
        Outcome.error (Err.failedToSetSignerQuoted clientCtx.fromAddress e) ∧
      (handleGovProposal b flags input clientCtx addressCodec fd).trace.filter
        Event.isPipelineCall = []) ∧
    (∀ authority f signer e, b.BytesToString addressCodec b.govModuleAddress = .ok authority →
      fd = some f →
      b.BytesToString addressCodec clientCtx.fromAddress = .ok signer →
      b.ReadGovPropCmdFlags signer flags = .error e →
      (handleGovProposal b flags input clientCtx addressCodec fd).out = Outcome.error e ∧
      (handleGovProposal b flags input clientCtx addressCodec fd).trace.filter
        Event.isPipelineCall = []) ∧
    (∀ authority f signer proposal e,
      b.BytesToString addressCodec b.govModuleAddress = .ok authority →
      fd = some f →
      b.BytesToString addressCodec clientCtx.fromAddress = .ok signer →
      b.ReadGovPropCmdFlags signer flags = .ok proposal →
      cloneMessage b input.descriptor (input.Set f authority) = .error e →
      (handleGovProposal b flags input clientCtx addressCodec fd).out =
        Outcome.error (Err.failedToCloneMessage e) ∧
      (handleGovProposal b flags input clientCtx addressCodec fd).trace.filter
        Event.isPipelineCall = []) ∧
    (∀ authority f signer proposal msg e,
      b.BytesToString addressCodec b.govModuleAddress = .ok authority →
      fd = some f →
      b.BytesToString addressCodec clientCtx.fromAddress = .ok signer →
      b.ReadGovPropCmdFlags signer flags = .ok proposal →
      cloneMessage b input.descriptor (input.Set f authority) = .ok msg →
      SetMsgs b proposal [msg] = .error e →
      (handleGovProposal b flags input clientCtx addressCodec fd).out =
        Outcome.error (Err.failedToSetMsgInProposal e) ∧
      (handleGovProposal b flags input clientCtx addressCodec fd).trace.filter
        Event.isPipelineCall = []) ∧
    (∀ authority f signer proposal msg proposal1,
      b.BytesToString addressCodec b.govModuleAddress = .ok authority →
      fd = some f →
      b.BytesToString addressCodec clientCtx.fromAddress = .ok signer →
      b.ReadGovPropCmdFlags signer flags = .ok proposal →
      cloneMessage b input.descriptor (input.Set f authority) = .ok msg →
      SetMsgs b proposal [msg] = .ok proposal1 →
      (handleGovProposal b flags input clientCtx addressCodec fd).trace.filter
        Event.isPipelineCall =
          [Event.generateOrBroadcastTxCLI clientCtx (Payload.proposal proposal1)] ∧
      proposal1 = { proposal with messages := [msg] } ∧
      (handleGovProposal b flags input clientCtx addressCodec fd).out =
        pipelineOutcome (b.GenerateOrBroadcastTxCLI clientCtx flags
          (Payload.proposal proposal1))) ∧
    ((∃ ev ∈ (handleGovProposal b flags input clientCtx addressCodec fd).trace,
        ev.failed b flags = true) →
      (∃ e, (handleGovProposal b flags input clientCtx addressCodec fd).out = Outcome.error e) ∧
      (handleGovProposal b flags input clientCtx addressCodec fd).trace.filter
        Event.isPipelineCall = []) ∧
    ((handleGovProposal b flags input clientCtx addressCodec fd).trace.filter
        Event.isPipelineCall = [] ∨
      ∃ authority f signer proposal msg proposal1,
        b.BytesToString addressCodec b.govModuleAddress = .ok authority ∧
        fd = some f ∧
        b.BytesToString addressCodec clientCtx.fromAddress = .ok signer ∧
        b.ReadGovPropCmdFlags signer flags = .ok proposal ∧
        cloneMessage b input.descriptor (input.Set f authority) = .ok msg ∧
        SetMsgs b proposal [msg] = .ok proposal1 ∧
        proposal1 = { proposal with messages := [msg] } ∧
        (handleGovProposal b flags input clientCtx addressCodec fd).trace =
          [Event.bytesToString addressCodec b.govModuleAddress,
            Event.bytesToString addressCodec clientCtx.fromAddress,
            Event.readGovPropCmdFlags signer,
            Event.cloneMessage (input.Set f authority),
            Event.setMsgs [msg],
            Event.generateOrBroadcastTxCLI clientCtx (Payload.proposal proposal1)] ∧
        (handleGovProposal b flags input clientCtx addressCodec fd).out =
          pipelineOutcome (b.GenerateOrBroadcastTxCLI clientCtx flags
            (Payload.proposal proposal1))) := by
  have hd : ∀ f a, (input.Set f a).descriptor = input.descriptor := fun _ _ => rfl
  refine ⟨?_, ?_, ?_, ?_, ?_, ?_, ?_⟩
  · intro e h1
    simp [handleGovProposal, h1, Event.isPipelineCall]
  · intro authority f e h1 hfd h2
    subst hfd
    simp [handleGovProposal, h1, h2, Event.isPipelineCall]
  · intro authority f signer e h1 hfd h2 h3
    subst hfd
    simp [handleGovProposal, h1, h2, h3, Event.isPipelineCall]
  · intro authority f signer proposal e h1 hfd h2 h3 h4
    subst hfd
    simp [handleGovProposal, h1, h2, h3, hd, h4, Event.isPipelineCall]
  · intro authority f signer proposal msg e h1 hfd h2 h3 h4 h5
    subst hfd
    simp [handleGovProposal, h1, h2, h3, hd, h4, h5, Event.isPipelineCall]
  · intro authority f signer proposal msg proposal1 h1 hfd h2 h3 h4 h5
    subst hfd
    have hp : proposal1 = { proposal with messages := [msg] } := by
      unfold SetMsgs at h5
      cases hpk : b.packMsgs [msg] with
      | some e => simp [hpk] at h5
      | none =>
        simp only [hpk] at h5
        injection h5 with h5
        exact h5.symm
    simp [handleGovProposal, h1, h2, h3, hd, h4, h5, Event.isPipelineCall, hp]
  · unfold handleGovProposal
    cases h1 : b.BytesToString addressCodec b.govModuleAddress with
    | error e => simp [Event.isPipelineCall]
    | ok authority =>
      cases fd with
      | none => simp [Event.isPipelineCall, Event.failed, h1]
      | some f =>
        cases h2 : b.BytesToString addressCodec clientCtx.fromAddress with
        | error e => simp [Event.isPipelineCall]
        | ok signer =>
          cases h3 : b.ReadGovPropCmdFlags signer flags with
          | error e => simp [Event.isPipelineCall, h3]
          | ok proposal =>
            cases h4 : cloneMessage b input.descriptor (input.Set f authority) with
            | error e => simp [Event.isPipelineCall, hd, h3, h4]
            | ok msg =>
              cases h5 : b.packMsgs [msg] with
              | some e => simp [Event.isPipelineCall, hd, h3, h4, SetMsgs, h5]
              | none =>
                simp [Event.isPipelineCall, hd, h4, SetMsgs, h5, Event.failed, h1, h2, h3]

/-- Witness of `handleGovProposal_pipeline_only_after_all_steps`: with a proposal-flag reader
that fails, the call returns the reader's error and makes no pipeline call. -/
theorem handleGovProposal_pipeline_only_after_all_steps_witness :
    (handleGovProposal exampleBuilderBadFlags ⟨some false, []⟩
        ⟨exampleMsgDescriptor, []⟩ exampleClientCtx Codec.AddressCodec
        (some exampleSignerField)).out = Outcome.error (Err.external "invalid deposit") ∧
    (handleGovProposal exampleBuilderBadFlags ⟨some false, []⟩
        ⟨exampleMsgDescriptor, []⟩ exampleClientCtx Codec.AddressCodec
        (some exampleSignerField)).trace.filter Event.isPipelineCall = [] :=
  (handleGovProposal_pipeline_only_after_all_steps exampleBuilderBadFlags ⟨some false, []⟩
    ⟨exampleMsgDescriptor, []⟩ exampleClientCtx Codec.AddressCodec
    (some exampleSignerField)).2.2.1 "addr1gov" exampleSignerField "addr1pro"
    (Err.external "invalid deposit") rfl rfl rfl rfl

/-- Reading back the field just written gives the written value. -/
theorem Message.Get_Set (m : Message) (fd : FieldDescriptor) (v : String) :
    (m.Set fd v).Get fd = v := by
  simp [Message.Get, Message.Set, List.lookup]

/-- The codec selection of `execFunc` is the one the spec prescribes. -/
theorem signerCodec_eq_spec (fd : FieldDescriptor) :
    signerCodec fd = specSignerCodec fd.scalar := by
  unfold signerCodec specSignerCodec
  rcases h : fd.scalar with _ | s
  · simp
  · cases s <;> simp

/-- Writing a field does not change which field is the signer field. -/
theorem Message.signerField_Set (m : Message) (fd : FieldDescriptor) (v : String) :
    (m.Set fd v).signerField = m.signerField := rfl

/-- The signer field has the name the descriptor gives for it. -/
theorem Message.signerField_name {m : Message} {fd : FieldDescriptor}
    (h : m.signerField = some fd) : fd.name = m.descriptor.signer := by
  have := List.find?_some h
  simpa using this

/-- The characters of a string survive the passage through their code points. -/
theorem string_of_codes (s : String) :
    String.mk ((s.toList.map Char.toNat).map Char.ofNat) = s := by
  have h : (s.toList.map Char.toNat).map Char.ofNat = s.toList := by
    rw [List.map_map]
    have hid : (Char.ofNat ∘ Char.toNat) = id := by
      funext c
      simp [Char.ofNat_toNat]
    rw [hid, List.map_id]
  rw [h]
  cases s
  rfl

/-- The bridge of the example builder keeps the signer field. -/
theorem exampleBuilder_bridgeKeepsSigner : bridgeKeepsSigner exampleBuilder := by
  intro src dst fd hfd hclone
  have hname := Message.signerField_name hfd
  simp only [cloneMessage, exampleBuilder] at hclone
  injection hclone with hclone
  subst hclone
  simp only [Message.Get, string_of_codes, hname, List.lookup, beq_self_eq_true,
    Option.getD_some]

/-- C5, counterexample: a governance-gated method invoked without opt-out on an input whose
signer field the caller already set to `addr1gov`, the encoding of the governance authority:
the proposal is submitted and its wrapped message is equal to the input, so that its signer
field holds `addr1gov`, the caller-supplied value. -/
theorem gov_proposal_signer_can_equal_supplied_value :
    (execFunc exampleBuilder exampleGovOptions (.ok exampleClientCtx)
        ⟨some false, [("title", "t")]⟩
        ⟨exampleMsgDescriptor, [("authority", "addr1gov")]⟩).trace.filter Event.isPipelineCall =
      [Event.generateOrBroadcastTxCLI exampleClientCtx
        (Payload.proposal ⟨"addr1pro", "t",
          [⟨exampleMsgDescriptor, [("authority", "addr1gov")]⟩]⟩)] ∧
    (⟨exampleMsgDescriptor, [("authority", "addr1gov")]⟩ : Message).signerField =
      some exampleSignerField ∧
    (⟨exampleMsgDescriptor, [("authority", "addr1gov")]⟩ : Message).Get exampleSignerField =
      "addr1gov" := by
  refine ⟨by rfl, by rfl, by rfl⟩

/-- C5 (amended): for every input message, prior signer value and scalar annotation of the
signer field, when the method is governance-gated, the no-proposal flag is not set and no step
fails, `execFunc` makes exactly one pipeline call, after encoding both addresses with the
general codec; the payload is the proposal read by `ReadGovPropCmdFlags` for the encoded
acting address, with the bridged copy of the overwritten input as its only message. The
bridge being a faithful copy on the signer field, the signer field of that wrapped message is
the encoded governance authority, whatever the caller supplied and whatever the acting
address: neither of the two is found there unless it is equal to the authority string. -/
theorem execFunc_gov_proposal (b : Builder) (options : RpcCommandOptions)
    (clientCtx : ClientCtx) (flags : FlagSet) (input : Message) (f : FieldDescriptor)
    (authority signer : String) (proposal : Proposal) (msg : Message)
    (hbridge : bridgeKeepsSigner b)
    (hgov : options.GovProposal = true) (hflag : flags.noProposal ≠ some true)
    (hfd : input.signerField = some f)
    (h1 : b.BytesToString Codec.AddressCodec b.govModuleAddress = .ok authority)
    (h2 : b.BytesToString Codec.AddressCodec clientCtx.fromAddress = .ok signer)
    (h3 : b.ReadGovPropCmdFlags signer flags = .ok proposal)
    (h4 : cloneMessage b input.descriptor (input.Set f authority) = .ok msg)
    (h5 : b.packMsgs [msg] = none) :
    execFunc b options (.ok clientCtx) flags input =
      ⟨[Event.bytesToString Codec.AddressCodec b.govModuleAddress,
          Event.bytesToString Codec.AddressCodec clientCtx.fromAddress,
          Event.readGovPropCmdFlags signer,
          Event.cloneMessage (input.Set f authority),
          Event.setMsgs [msg],
          Event.generateOrBroadcastTxCLI clientCtx
            (Payload.proposal { proposal with messages := [msg] })],
        input.Set f authority,
        pipelineOutcome (b.GenerateOrBroadcastTxCLI clientCtx flags
          (Payload.proposal { proposal with messages := [msg] }))⟩ ∧
    msg.Get f = authority ∧
    (input.Get f ≠ authority → msg.Get f ≠ input.Get f) ∧
    (signer ≠ authority → msg.Get f ≠ signer) := by
  have hmsg : msg.Get f = authority := by
    have := hbridge (input.Set f authority) msg f
      ((Message.signerField_Set input f authority).trans hfd) h4
    rw [this, Message.Get_Set]
  refine ⟨?_, hmsg, ?_, ?_⟩
  · have hskip : flags.noProposal.getD false = false := by
      rcases h : flags.noProposal with _ | v
      · rfl
      · cases v
        · rfl
        · exact absurd h hflag
    have hd : (input.Set f authority).descriptor = input.descriptor := rfl
    simp [execFunc, hgov, hskip, hfd, handleGovProposal, h1, h2, h3, hd, h4, SetMsgs, h5]
  · intro hne
    rw [hmsg]
    exact fun h => hne h.symm
  · intro hne
    rw [hmsg]
    exact fun h => hne h.symm

/-- Witness of `execFunc_gov_proposal`: the scenario of the spec, with an input whose signer
field holds a caller-supplied value; the wrapped message holds `addr1gov`, which is neither
the supplied `addr1me` nor the encoded acting address `addr1pro`. -/
theorem execFunc_gov_proposal_witness :
    execFunc exampleBuilder exampleGovOptions (.ok exampleClientCtx)
        ⟨some false, [("title", "t")]⟩ ⟨exampleMsgDescriptor, [("authority", "addr1me")]⟩ =
      ⟨[Event.bytesToString Codec.AddressCodec [103, 111, 118],
          Event.bytesToString Codec.AddressCodec [112, 114, 111],
          Event.readGovPropCmdFlags "addr1pro",
          Event.cloneMessage ⟨exampleMsgDescriptor, [("authority", "addr1gov")]⟩,
          Event.setMsgs [⟨exampleMsgDescriptor, [("authority", "addr1gov")]⟩],
          Event.generateOrBroadcastTxCLI exampleClientCtx
            (Payload.proposal ⟨"addr1pro", "t",
              [⟨exampleMsgDescriptor, [("authority", "addr1gov")]⟩]⟩)],
        ⟨exampleMsgDescriptor, [("authority", "addr1gov")]⟩, Outcome.ok⟩ ∧
    (⟨exampleMsgDescriptor, [("authority", "addr1gov")]⟩ : Message).Get exampleSignerField =
      "addr1gov" ∧
    ((⟨exampleMsgDescriptor, [("authority", "addr1me")]⟩ : Message).Get exampleSignerField ≠
        "addr1gov" →
      (⟨exampleMsgDescriptor, [("authority", "addr1gov")]⟩ : Message).Get exampleSignerField ≠
        (⟨exampleMsgDescriptor, [("authority", "addr1me")]⟩ : Message).Get
          exampleSignerField) ∧
    ("addr1pro" ≠ "addr1gov" →
      (⟨exampleMsgDescriptor, [("authority", "addr1gov")]⟩ : Message).Get exampleSignerField ≠
        "addr1pro") :=
  execFunc_gov_proposal exampleBuilder exampleGovOptions exampleClientCtx
    ⟨some false, [("title", "t")]⟩ ⟨exampleMsgDescriptor, [("authority", "addr1me")]⟩
    exampleSignerField "addr1gov" "addr1pro" ⟨"addr1pro", "t", []⟩
    ⟨exampleMsgDescriptor, [("authority", "addr1gov")]⟩
    exampleBuilder_bridgeKeepsSigner rfl (by decide) rfl rfl rfl rfl rfl rfl

/-- C6: whenever the method is not governance-gated, or the no-proposal flag is set,
`execFunc` takes the normal path: with a non-empty signer field no codec is called, the
input is left unchanged and its bridged copy is handed to the pipeline; with an empty signer
field the acting address is encoded by the codec the spec prescribes for the scalar
annotation, written into the field, and the bridged copy of that message is handed to the
pipeline; and the closure behaves as the one of the same method with `GovProposal = false`. -/
theorem execFunc_normal_path (b : Builder) (options : RpcCommandOptions)
    (clientCtx : ClientCtx) (flags : FlagSet) (input : Message)
    (hnormal : options.GovProposal = false ∨ flags.noProposal = some true) :
    (∀ f, input.signerField = some f → input.Get f ≠ "" →
      ∀ msg, cloneMessage b input.descriptor input = .ok msg →
      execFunc b options (.ok clientCtx) flags input =
        ⟨[Event.cloneMessage input,
            Event.generateOrBroadcastTxCLI clientCtx (Payload.msg msg)],
          input,
          pipelineOutcome (b.GenerateOrBroadcastTxCLI clientCtx flags (Payload.msg msg))⟩) ∧
    (∀ f, input.signerField = some f → input.Get f = "" →
      ∀ signer msg,
      b.BytesToString (specSignerCodec f.scalar) clientCtx.fromAddress = .ok signer →
      cloneMessage b input.descriptor (input.Set f signer) = .ok msg →
      execFunc b options (.ok clientCtx) flags input =
        ⟨[Event.bytesToString (specSignerCodec f.scalar) clientCtx.fromAddress,
            Event.cloneMessage (input.Set f signer),
            Event.generateOrBroadcastTxCLI clientCtx (Payload.msg msg)],
          input.Set f signer,
          pipelineOutcome (b.GenerateOrBroadcastTxCLI clientCtx flags (Payload.msg msg))⟩) ∧
    (∀ getClientTxContext,
      execFunc b options getClientTxContext flags input =
        execFunc b { options with GovProposal := false } getClientTxContext flags input) := by
  have hbranch : (options.GovProposal && !flags.noProposal.getD false) = false := by
    rcases hnormal with h | h
    · simp [h]
    · simp [h]
  refine ⟨?_, ?_, ?_⟩
  · intro f hfd hne msg hclone
    simp [execFunc, hbranch, hfd, hne, submitMsg, hclone]
  · intro f hfd hempty signer msg hcodec hclone
    have hd : (input.Set f signer).descriptor = input.descriptor := rfl
    simp [execFunc, hbranch, hfd, hempty, signerCodec_eq_spec, hcodec, submitMsg, hd, hclone]
  · intro g
    cases g with
    | error e => rfl
    | ok ctx => simp [execFunc, hbranch]

/-- Witness of `execFunc_normal_path`: a governance-gated method run with the no-proposal
flag on an input whose signer field is unset; the acting address is written into it. -/
theorem execFunc_normal_path_witness :
    execFunc exampleBuilder exampleGovOptions (.ok exampleClientCtx)
        ⟨some true, []⟩ ⟨exampleMsgDescriptor, []⟩ =
      ⟨[Event.bytesToString Codec.AddressCodec [112, 114, 111],
          Event.cloneMessage ⟨exampleMsgDescriptor, [("authority", "addr1pro")]⟩,
          Event.generateOrBroadcastTxCLI exampleClientCtx
            (Payload.msg ⟨exampleMsgDescriptor, [("authority", "addr1pro")]⟩)],
        ⟨exampleMsgDescriptor, [("authority", "addr1pro")]⟩, Outcome.ok⟩ :=
  (execFunc_normal_path exampleBuilder exampleGovOptions exampleClientCtx
    ⟨some true, []⟩ ⟨exampleMsgDescriptor, []⟩ (Or.inr rfl)).2.1 exampleSignerField rfl rfl
    "addr1pro" ⟨exampleMsgDescriptor, [("authority", "addr1pro")]⟩ rfl rfl

/-! ### The service part of `AddMsgServiceCommands` -/

/-- Unfolding of `AddMsgServiceCommands` through the accessors of the descriptor. -/
theorem AddMsgServiceCommands_eq (b : Builder) (cmd : Command)
    (d : ServiceCommandDescriptor) (calls : List BuildCall) :
    AddMsgServiceCommands b cmd d calls =
      match subCommandsLoop b cmd d.SubCommands calls with
      | ⟨cmd1, calls1, Outcome.ok⟩ => serviceCommands b d.Service d.Options cmd1 calls1
      | r => r := by
  cases d with
  | mk s o subs e sh =>
    rw [AddMsgServiceCommands]
    rfl

/-- When the sub-command loop ends well, the rest is `serviceCommands` on its state. -/
theorem AddMsgServiceCommands_of_sub_ok (b : Builder) (cmd : Command)
    (d : ServiceCommandDescriptor) (calls : List BuildCall) (cmd1 : Command)
    (calls1 : List BuildCall)
    (hsub : subCommandsLoop b cmd d.SubCommands calls = ⟨cmd1, calls1, Outcome.ok⟩) :
    AddMsgServiceCommands b cmd d calls = serviceCommands b d.Service d.Options cmd1 calls1 := by
  rw [AddMsgServiceCommands_eq, hsub]

/-- When the sub-command loop does not end well, its state is the result. -/
theorem AddMsgServiceCommands_of_sub_not_ok (b : Builder) (cmd : Command)
    (d : ServiceCommandDescriptor) (calls : List BuildCall)
    (hsub : (subCommandsLoop b cmd d.SubCommands calls).out ≠ Outcome.ok) :
    AddMsgServiceCommands b cmd d calls = subCommandsLoop b cmd d.SubCommands calls := by
  rw [AddMsgServiceCommands_eq]
  rcases h : subCommandsLoop b cmd d.SubCommands calls with ⟨c, l, o⟩
  rw [h] at hsub
  cases o with
  | ok => exact absurd rfl hsub
  | error e => rfl
  | panic r => rfl

/-- The options loop fails at the first entry that names no method, and otherwise stores
every entry, the later ones in front. -/
theorem buildRpcOptMap_eq (service : ServiceDescriptor) (options : List RpcCommandOptions)
    (acc : RpcOptMap) :
    buildRpcOptMap service options acc =
      match options.find? (namesNoMethod service) with
      | some o => .error (Err.rpcMethodNotFound o.RpcMethod service.fullName)
      | none => .ok (options.reverse.map (fun o => (o.RpcMethod, o)) ++ acc) := by
  induction options generalizing acc with
  | nil => rfl
  | cons o rest ih =>
    rw [buildRpcOptMap]
    cases h : service.methods.find? (fun m => m.name = o.RpcMethod) with
    | none =>
      have : namesNoMethod service o = true := by simp [namesNoMethod, h]
      simp [List.find?, this]
    | some m =>
      have : namesNoMethod service o = false := by simp [namesNoMethod, h]
      simp only [List.find?, this, ih]
      cases rest.find? (namesNoMethod service) with
      | some o2 => rfl
      | none => simp

/-- What the method loop looks up for a method is the last entry given for its name, or the
zero value. -/
theorem methodOptions_eq_last (options : List RpcCommandOptions) (md : MethodDescriptor) :
    methodOptions (options.reverse.map (fun o => (o.RpcMethod, o))) md =
      (lastOptionFor options md.name).getD {} := by
  unfold methodOptions lastOptionFor
  congr 1
  induction options.reverse with
  | nil => rfl
  | cons o rest ih =>
    by_cases h : o.RpcMethod = md.name
    · have h2 : (md.name == o.RpcMethod) = true := by simp [h]
      simp [List.lookup, List.find?, h, h2]
    · have h2 : (md.name == o.RpcMethod) = false := by
        simp only [beq_eq_false_iff_ne, ne_eq]
        exact fun e => h e.symm
      simp [List.lookup, List.find?, h, h2, ih]

/-- What the method loop does to the state: it appends calls and children and touches nothing
else; every call is for a supported method of the list with options that are not `Skip`;
every appended child was built by one of these calls. -/
theorem methodLoop_spec (b : Builder) (rpcOptMap : RpcOptMap) (ms : List MethodDescriptor)
    (cmd : Command) (calls : List BuildCall) :
    ∃ extra added,
      (methodLoop b rpcOptMap ms cmd calls).calls = calls ++ extra ∧
      (methodLoop b rpcOptMap ms cmd calls).cmd =
        Command.mk cmd.name cmd.short cmd.run cmd.silenceUsage cmd.flags
          (cmd.commands ++ added) ∧
      (∀ c ∈ extra, c.descriptor ∈ ms ∧ c.options = methodOptions rpcOptMap c.descriptor ∧
        c.options.Skip = false ∧ b.IsSupportedVersion c.descriptor = true) ∧
      (∀ x ∈ added, ∃ c ∈ extra, BuildMsgMethodCommand b c.descriptor c.options = .ok x) := by
  induction ms generalizing cmd calls with
  | nil =>
    refine ⟨[], [], by simp [methodLoop], ?_, by simp, by simp⟩
    cases cmd; simp [methodLoop, Command.name, Command.short, Command.run,
      Command.silenceUsage, Command.flags, Command.commands]
  | cons md rest ih =>
    rw [methodLoop]
    by_cases hskip : (methodOptions rpcOptMap md).Skip = true
    · simp only [hskip, if_true]
      obtain ⟨extra, added, h1, h2, h3, h4⟩ := ih cmd calls
      exact ⟨extra, added, h1, h2,
        fun c hc => ⟨List.mem_cons_of_mem _ (h3 c hc).1, (h3 c hc).2⟩, h4⟩
    · by_cases hsup : b.IsSupportedVersion md = true
      · have hskip2 : (methodOptions rpcOptMap md).Skip = false := by simpa using hskip
        simp only [hskip2, hsup, Bool.not_true, if_false, Bool.false_eq_true]
        cases hb : BuildMsgMethodCommand b md (methodOptions rpcOptMap md) with
        | error e =>
          refine ⟨[⟨md, methodOptions rpcOptMap md⟩], [], rfl, ?_, ?_, by simp⟩
          · cases cmd; simp [Command.name, Command.short, Command.run,
              Command.silenceUsage, Command.flags, Command.commands]
          · intro c hc
            simp only [List.mem_singleton] at hc
            subst hc
            exact ⟨List.mem_cons_self _ _, rfl, hskip2, hsup⟩
        | ok methodCmd =>
          by_cases hf : (findSubCommand cmd methodCmd.name).isSome = true
          · simp only [hf, if_true]
            obtain ⟨extra, added, h1, h2, h3, h4⟩ :=
              ih cmd (calls ++ [⟨md, methodOptions rpcOptMap md⟩])
            refine ⟨⟨md, methodOptions rpcOptMap md⟩ :: extra, added, ?_, h2, ?_, ?_⟩
            · rw [h1]; simp
            · intro c hc
              rcases List.mem_cons.1 hc with rfl | hc
              · exact ⟨List.mem_cons_self _ _, rfl, hskip2, hsup⟩
              · exact ⟨List.mem_cons_of_mem _ (h3 c hc).1, (h3 c hc).2⟩
            · intro x hx
              obtain ⟨c, hc, hcx⟩ := h4 x hx
              exact ⟨c, List.mem_cons_of_mem _ hc, hcx⟩
          · simp only [hf, if_false, Bool.false_eq_true]
            obtain ⟨extra, added, h1, h2, h3, h4⟩ :=
              ih (cmd.AddCommand methodCmd) (calls ++ [⟨md, methodOptions rpcOptMap md⟩])
            refine ⟨⟨md, methodOptions rpcOptMap md⟩ :: extra, methodCmd :: added, ?_, ?_, ?_, ?_⟩
            · rw [h1]; simp
            · rw [h2]; cases cmd; simp [Command.AddCommand, Command.name, Command.short,
                Command.run, Command.silenceUsage, Command.flags, Command.commands]
            · intro c hc
              rcases List.mem_cons.1 hc with rfl | hc
              · exact ⟨List.mem_cons_self _ _, rfl, hskip2, hsup⟩
              · exact ⟨List.mem_cons_of_mem _ (h3 c hc).1, (h3 c hc).2⟩
            · intro x hx
              rcases List.mem_cons.1 hx with rfl | hx
              · exact ⟨_, List.mem_cons_self _ _, hb⟩
              · obtain ⟨c, hc, hcx⟩ := h4 x hx
                exact ⟨c, List.mem_cons_of_mem _ hc, hcx⟩
      · have hsup2 : b.IsSupportedVersion md = false := by simpa using hsup
        have hskip2 : (methodOptions rpcOptMap md).Skip = false := by simpa using hskip
        simp only [hskip2, hsup2, Bool.not_false, if_true, if_false, Bool.false_eq_true]
        obtain ⟨extra, added, h1, h2, h3, h4⟩ := ih cmd calls
        exact ⟨extra, added, h1, h2,
          fun c hc => ⟨List.mem_cons_of_mem _ (h3 c hc).1, (h3 c hc).2⟩, h4⟩

/-- The method loop gives the same result on the supported methods alone. -/
theorem methodLoop_filter_supported (b : Builder) (rpcOptMap : RpcOptMap)
    (ms : List MethodDescriptor) (cmd : Command) (calls : List BuildCall) :
    methodLoop b rpcOptMap ms cmd calls =
      methodLoop b rpcOptMap (ms.filter (fun md => b.IsSupportedVersion md)) cmd calls := by
  induction ms generalizing cmd calls with
  | nil => rfl
  | cons md rest ih =>
    by_cases hsup : b.IsSupportedVersion md = true
    · simp only [List.filter_cons, hsup, if_true]
      rw [methodLoop, methodLoop]
      simp only [ih]
    · have hsup2 : b.IsSupportedVersion md = false := by simpa using hsup
      simp only [List.filter_cons, hsup2, if_false, Bool.false_eq_true]
      rw [methodLoop]
      simp [hsup2, ih]

/-- What the service part does to the state: as `methodLoop_spec`, whatever the outcome. -/
theorem serviceCommands_spec (b : Builder) (service : String)
    (options : List RpcCommandOptions) (cmd : Command) (calls : List BuildCall) :
    ∃ extra added,
      (serviceCommands b service options cmd calls).calls = calls ++ extra ∧
      (serviceCommands b service options cmd calls).cmd =
        Command.mk cmd.name cmd.short cmd.run cmd.silenceUsage cmd.flags
          (cmd.commands ++ added) ∧
      (∀ c ∈ extra, c.options = (lastOptionFor options c.descriptor.name).getD {} ∧
        c.options.Skip = false ∧ b.IsSupportedVersion c.descriptor = true) ∧
      (∀ x ∈ added, ∃ c ∈ extra, BuildMsgMethodCommand b c.descriptor c.options = .ok x) := by
  have hsame : cmd = Command.mk cmd.name cmd.short cmd.run cmd.silenceUsage cmd.flags
      (cmd.commands ++ []) := by
    cases cmd; simp [Command.name, Command.short, Command.run,
      Command.silenceUsage, Command.flags, Command.commands]
  unfold serviceCommands
  by_cases hs : service = ""
  · simp only [hs, if_true]
    exact ⟨[], [], by simp, hsame, by simp, by simp⟩
  · simp only [hs, if_false]
    cases hfind : b.FindDescriptorByName service with
    | error e => exact ⟨[], [], by simp, hsame, by simp, by simp⟩
    | ok desc =>
      cases desc with
      | message n => exact ⟨[], [], by simp, hsame, by simp, by simp⟩
      | service svc =>
        simp only [buildRpcOptMap_eq]
        cases hbad : options.find? (namesNoMethod svc) with
        | some o => exact ⟨[], [], by simp, hsame, by simp, by simp⟩
        | none =>
          simp only [List.append_nil]
          obtain ⟨extra, added, h1, h2, h3, h4⟩ :=
            methodLoop_spec b (options.reverse.map (fun o => (o.RpcMethod, o))) svc.methods cmd calls
          refine ⟨extra, added, h1, h2, ?_, h4⟩
          intro c hc
          obtain ⟨_, ho, hsk, hsu⟩ := h3 c hc
          rw [methodOptions_eq_last] at ho
          exact ⟨ho, hsk, hsu⟩

/-- The state of `AddMsgServiceCommands` extends the state left by its sub-command loop by
calls for supported, non-skipped methods and by the commands these calls built. -/
theorem AddMsgServiceCommands_after_sub (b : Builder) (cmd : Command)
    (d : ServiceCommandDescriptor) (calls : List BuildCall) :
    ∃ extra added,
      (AddMsgServiceCommands b cmd d calls).calls =
        (subCommandsLoop b cmd d.SubCommands calls).calls ++ extra ∧
      (AddMsgServiceCommands b cmd d calls).cmd.commands =
        (subCommandsLoop b cmd d.SubCommands calls).cmd.commands ++ added ∧
      (∀ c ∈ extra, c.options = (lastOptionFor d.Options c.descriptor.name).getD {} ∧
        c.options.Skip = false ∧ b.IsSupportedVersion c.descriptor = true) ∧
      (∀ x ∈ added, ∃ c ∈ extra, BuildMsgMethodCommand b c.descriptor c.options = .ok x) := by
  by_cases hok : (subCommandsLoop b cmd d.SubCommands calls).out = Outcome.ok
  · rcases hs : subCommandsLoop b cmd d.SubCommands calls with ⟨cmd1, calls1, o⟩
    rw [hs] at hok
    simp only at hok
    subst hok
    rw [AddMsgServiceCommands_of_sub_ok b cmd d calls cmd1 calls1 hs]
    obtain ⟨extra, added, h1, h2, h3, h4⟩ :=
      serviceCommands_spec b d.Service d.Options cmd1 calls1
    refine ⟨extra, added, h1, ?_, h3, h4⟩
    rw [h2]
    rfl
  · rw [AddMsgServiceCommands_of_sub_not_ok b cmd d calls hok]
    exact ⟨[], [], by simp, by simp, by simp, by simp⟩

/-- C3, counterexample: (1) the options of `bank.Msg` name the absent methods `Mint` and
`Foo`, in that order; the error carries `Mint` and is not the error for `Foo`. (2) The options
name the absent method `Mint` and the descriptor has a sub-command bound to the same service;
the sub-command loop succeeds, the call returns the error for `Mint`, and the method commands
`Send` and `UpdateParams` of the service have been built and hang under the parent. -/
theorem unknown_rpc_method_names_only_first_entry :
    namesNoMethod ⟨"bank.Msg", exampleMethods⟩ { RpcMethod := "Foo" } = true ∧
    (AddMsgServiceCommands exampleBuilder exampleTx
      (ServiceCommandDescriptor.mk "bank.Msg" [{ RpcMethod := "Mint" }, { RpcMethod := "Foo" }]
        [] false "") []).out = Outcome.error (Err.rpcMethodNotFound "Mint" "bank.Msg") ∧
    Outcome.error (Err.rpcMethodNotFound "Mint" "bank.Msg") ≠
      Outcome.error (Err.rpcMethodNotFound "Foo" "bank.Msg") ∧
    (subCommandsLoop exampleBuilder exampleTx
      [("sub", ServiceCommandDescriptor.mk "bank.Msg" [] [] false "")] []).out = Outcome.ok ∧
    (AddMsgServiceCommands exampleBuilder exampleTx
      (ServiceCommandDescriptor.mk "bank.Msg" [{ RpcMethod := "Mint" }]
        [("sub", ServiceCommandDescriptor.mk "bank.Msg" [] [] false "")] false "") []).out =
      Outcome.error (Err.rpcMethodNotFound "Mint" "bank.Msg") ∧
    (AddMsgServiceCommands exampleBuilder exampleTx
      (ServiceCommandDescriptor.mk "bank.Msg" [{ RpcMethod := "Mint" }]
        [("sub", ServiceCommandDescriptor.mk "bank.Msg" [] [] false "")] false "")
      []).calls.map (fun c => c.descriptor.name) = ["Send", "UpdateParams"] ∧
    (AddMsgServiceCommands exampleBuilder exampleTx
      (ServiceCommandDescriptor.mk "bank.Msg" [{ RpcMethod := "Mint" }]
        [("sub", ServiceCommandDescriptor.mk "bank.Msg" [] [] false "")] false "")
      []).cmd.hasPath ["sub", "Send"] = true := by
  refine ⟨by rfl, by rfl, by decide, by rfl, by rfl, by rfl, by rfl⟩

/-- C3 (amended): for a descriptor whose service name is non-empty and resolves to a service
and whose sub-command loop succeeds, if some entry of `RpcCommandOptions` names no method of
the service, `AddMsgServiceCommands` returns the error `rpc method %q not found for service
%q` carrying the method name of the first such entry and the full name of the service, and
command and call log are those the sub-command loop left: after that loop no method command
was built or attached. -/
theorem unknown_rpc_method_is_build_error (b : Builder) (cmd : Command)
    (d : ServiceCommandDescriptor) (calls : List BuildCall) (svc : ServiceDescriptor)
    (cmd1 : Command) (calls1 : List BuildCall)
    (hne : d.Service ≠ "")
    (hsvc : b.FindDescriptorByName d.Service = .ok (Descriptor.service svc))
    (hsub : subCommandsLoop b cmd d.SubCommands calls = ⟨cmd1, calls1, Outcome.ok⟩)
    (hbad : ∃ o ∈ d.Options, namesNoMethod svc o = true) :
    ∃ o ∈ d.Options, namesNoMethod svc o = true ∧
      d.Options.find? (namesNoMethod svc) = some o ∧
      AddMsgServiceCommands b cmd d calls =
        ⟨cmd1, calls1, Outcome.error (Err.rpcMethodNotFound o.RpcMethod svc.fullName)⟩ := by
  obtain ⟨o0, ho0, hbad0⟩ := hbad
  cases hfind : d.Options.find? (namesNoMethod svc) with
  | none =>
    have := List.find?_eq_none.1 hfind o0 ho0
    exact absurd hbad0 this
  | some o =>
    refine ⟨o, List.mem_of_find?_eq_some hfind, List.find?_some hfind, rfl, ?_⟩
    rw [AddMsgServiceCommands_of_sub_ok b cmd d calls cmd1 calls1 hsub]
    simp [serviceCommands, hne, hsvc, buildRpcOptMap_eq, hfind]

/-- Witness of `unknown_rpc_method_is_build_error`: the options of `bank.Msg` name the
method `Mint`, which the service does not have. -/
theorem unknown_rpc_method_is_build_error_witness :
    ∃ o ∈ [({ RpcMethod := "Send" } : RpcCommandOptions), { RpcMethod := "Mint" }],
      namesNoMethod ⟨"bank.Msg", exampleMethods⟩ o = true ∧
      [({ RpcMethod := "Send" } : RpcCommandOptions), { RpcMethod := "Mint" }].find?
        (namesNoMethod ⟨"bank.Msg", exampleMethods⟩) = some o ∧
      AddMsgServiceCommands exampleBuilder exampleTx
        (ServiceCommandDescriptor.mk "bank.Msg" [{ RpcMethod := "Send" }, { RpcMethod := "Mint" }]
          [] false "") [] =
        ⟨exampleTx, [], Outcome.error (Err.rpcMethodNotFound o.RpcMethod "bank.Msg")⟩ :=
  unknown_rpc_method_is_build_error exampleBuilder exampleTx
    (ServiceCommandDescriptor.mk "bank.Msg" [{ RpcMethod := "Send" }, { RpcMethod := "Mint" }]
      [] false "") [] ⟨"bank.Msg", exampleMethods⟩ exampleTx []
    (by decide) rfl rfl ⟨{ RpcMethod := "Mint" }, by simp [ServiceCommandDescriptor.Options], by decide⟩

/-- C4, counterexample: the options of `bank.Msg` hold an entry for `Send` with `Skip = true`
followed by an entry for `Send` with `Skip = false`; the build succeeds,
`BuildMsgMethodCommand` is called for `Send` and the command `Send` is attached. -/
theorem skip_entry_overridden_by_later_entry :
    (AddMsgServiceCommands exampleBuilder exampleTx
      (ServiceCommandDescriptor.mk "bank.Msg"
        [{ RpcMethod := "Send", Skip := true }, { RpcMethod := "Send", Skip := false }]
        [] false "") []).out = Outcome.ok ∧
    (AddMsgServiceCommands exampleBuilder exampleTx
      (ServiceCommandDescriptor.mk "bank.Msg"
        [{ RpcMethod := "Send", Skip := true }, { RpcMethod := "Send", Skip := false }]
        [] false "") []).calls.map (fun c => c.descriptor.name) = ["Send", "UpdateParams"] ∧
    (AddMsgServiceCommands exampleBuilder exampleTx
      (ServiceCommandDescriptor.mk "bank.Msg"
        [{ RpcMethod := "Send", Skip := true }, { RpcMethod := "Send", Skip := false }]
        [] false "") []).cmd.commands.map Command.name = ["bank", "Send", "UpdateParams"] := by
  refine ⟨by rfl, by rfl, by rfl⟩

/-- C4 (amended): if the last entry of `RpcCommandOptions` given for the method name `m` has
`Skip = true`, then among the calls `AddMsgServiceCommands` makes after its sub-command loop
none is a `BuildMsgMethodCommand` call for a method named `m`, and every command it attaches
to the parent after that loop was built by one of these calls. -/
theorem skipped_method_not_built (b : Builder) (cmd : Command)
    (d : ServiceCommandDescriptor) (calls : List BuildCall) (m : String)
    (o : RpcCommandOptions) (hlast : lastOptionFor d.Options m = some o)
    (hskip : o.Skip = true) :
    ∃ extra added,
      (AddMsgServiceCommands b cmd d calls).calls =
        (subCommandsLoop b cmd d.SubCommands calls).calls ++ extra ∧
      (AddMsgServiceCommands b cmd d calls).cmd.commands =
        (subCommandsLoop b cmd d.SubCommands calls).cmd.commands ++ added ∧
      (∀ c ∈ extra, c.descriptor.name ≠ m) ∧
      (∀ x ∈ added, ∃ c ∈ extra, BuildMsgMethodCommand b c.descriptor c.options = .ok x) := by
  obtain ⟨extra, added, h1, h2, h3, h4⟩ := AddMsgServiceCommands_after_sub b cmd d calls
  refine ⟨extra, added, h1, h2, ?_, h4⟩
  intro c hc hname
  obtain ⟨ho, hsk, _⟩ := h3 c hc
  rw [hname, hlast] at ho
  simp only [Option.getD_some] at ho
  rw [ho, hskip] at hsk
  exact Bool.noConfusion hsk

/-- Witness of `skipped_method_not_built`: the only entry for `Send` has `Skip = true`. -/
theorem skipped_method_not_built_witness :
    ∃ extra added,
      (AddMsgServiceCommands exampleBuilder exampleTx
        (ServiceCommandDescriptor.mk "bank.Msg" [{ RpcMethod := "Send", Skip := true }]
          [] false "") []).calls =
        (subCommandsLoop exampleBuilder exampleTx [] []).calls ++ extra ∧
      (AddMsgServiceCommands exampleBuilder exampleTx
        (ServiceCommandDescriptor.mk "bank.Msg" [{ RpcMethod := "Send", Skip := true }]
          [] false "") []).cmd.commands =
        (subCommandsLoop exampleBuilder exampleTx [] []).cmd.commands ++ added ∧
      (∀ c ∈ extra, c.descriptor.name ≠ "Send") ∧
      (∀ x ∈ added, ∃ c ∈ extra,
        BuildMsgMethodCommand exampleBuilder c.descriptor c.options = .ok x) :=
  skipped_method_not_built exampleBuilder exampleTx
    (ServiceCommandDescriptor.mk "bank.Msg" [{ RpcMethod := "Send", Skip := true }] [] false "")
    [] "Send" { RpcMethod := "Send", Skip := true } rfl rfl

/-- C9, counterexample: (1) the service `missing.Msg` is absent from the registry, but the
sub-command `bank` fails first, and the error returned names the method `Mint` and the service
`bank.Msg`, not `missing.Msg`; (2) the name `bank.MsgSend` is registered as a message, and the
call panics at the conversion to a service descriptor instead of returning an error. -/
theorem unknown_service_error_not_always_returned :
    (AddMsgServiceCommands exampleBuilder exampleTx
      (ServiceCommandDescriptor.mk "missing.Msg" []
        [("bank", ServiceCommandDescriptor.mk "bank.Msg" [{ RpcMethod := "Mint" }] [] true "")]
        false "") []).out = Outcome.error (Err.rpcMethodNotFound "Mint" "bank.Msg") ∧
    (AddMsgServiceCommands exampleBuilder exampleTx
      (ServiceCommandDescriptor.mk "bank.MsgSend" [] [] false "") []).out =
      Outcome.panic "interface conversion: not a protoreflect.ServiceDescriptor" := by
  refine ⟨by rfl, by rfl⟩

/-- C9 (amended): for a descriptor whose service name is non-empty and absent from the
registry (`FindDescriptorByName` returns an error), `AddMsgServiceCommands` never ends well;
when its sub-command loop ends well it returns the error `can't find service %s: %w` carrying
the service name and the registry error, with the state the sub-command loop left; otherwise
it ends as the sub-command loop ended. -/
theorem unknown_service_is_build_error (b : Builder) (cmd : Command)
    (d : ServiceCommandDescriptor) (calls : List BuildCall) (e : Err)
    (hne : d.Service ≠ "") (hmissing : b.FindDescriptorByName d.Service = .error e) :
    (AddMsgServiceCommands b cmd d calls).out ≠ Outcome.ok ∧
    ((subCommandsLoop b cmd d.SubCommands calls).out = Outcome.ok →
      AddMsgServiceCommands b cmd d calls =
        ⟨(subCommandsLoop b cmd d.SubCommands calls).cmd,
          (subCommandsLoop b cmd d.SubCommands calls).calls,
          Outcome.error (Err.cantFindService d.Service e)⟩) ∧
    ((subCommandsLoop b cmd d.SubCommands calls).out ≠ Outcome.ok →
      AddMsgServiceCommands b cmd d calls = subCommandsLoop b cmd d.SubCommands calls) := by
  have hok : (subCommandsLoop b cmd d.SubCommands calls).out = Outcome.ok →
      AddMsgServiceCommands b cmd d calls =
        ⟨(subCommandsLoop b cmd d.SubCommands calls).cmd,
          (subCommandsLoop b cmd d.SubCommands calls).calls,
          Outcome.error (Err.cantFindService d.Service e)⟩ := by
    intro h
    rcases hs : subCommandsLoop b cmd d.SubCommands calls with ⟨cmd1, calls1, o⟩
    rw [hs] at h
    simp only at h
    subst h
    rw [AddMsgServiceCommands_of_sub_ok b cmd d calls cmd1 calls1 hs]
    simp [serviceCommands, hne, hmissing]
  refine ⟨?_, hok, AddMsgServiceCommands_of_sub_not_ok b cmd d calls⟩
  by_cases h : (subCommandsLoop b cmd d.SubCommands calls).out = Outcome.ok
  · rw [hok h]
    simp
  · rw [AddMsgServiceCommands_of_sub_not_ok b cmd d calls h]
    exact h

/-- Witness of `unknown_service_is_build_error`: the service `missing.Msg` is not registered. -/
theorem unknown_service_is_build_error_witness :
    AddMsgServiceCommands exampleBuilder exampleTx
      (ServiceCommandDescriptor.mk "missing.Msg" [] [] false "") [] =
      ⟨exampleTx, [], Outcome.error (Err.cantFindService "missing.Msg"
        (Err.external "not found"))⟩ :=
  (unknown_service_is_build_error exampleBuilder exampleTx
    (ServiceCommandDescriptor.mk "missing.Msg" [] [] false "") [] (Err.external "not found")
    (by decide) rfl).2.1 rfl

/-- C10, counterexample: the method `Burn` of `bank.Msg` is not marked skip and its version
is unsupported; the build succeeds, no call is made for `Burn` and the commands of the other
methods are attached. -/
theorem unsupported_version_is_not_an_error :
    exampleBuilder.IsSupportedVersion ⟨"Burn", "bank.MsgBurn", "bank.MsgBurnResponse"⟩ = false ∧
    (AddMsgServiceCommands exampleBuilder exampleTx
      (ServiceCommandDescriptor.mk "bank.Msg" [] [] false "") []).out = Outcome.ok ∧
    (AddMsgServiceCommands exampleBuilder exampleTx
      (ServiceCommandDescriptor.mk "bank.Msg" [] [] false "") []).calls.map
        (fun c => c.descriptor.name) = ["Send", "UpdateParams"] ∧
    (AddMsgServiceCommands exampleBuilder exampleTx
      (ServiceCommandDescriptor.mk "bank.Msg" [] [] false "") []).cmd.commands.map
        Command.name = ["bank", "Send", "UpdateParams"] := by
  refine ⟨by rfl, by rfl, by rfl, by rfl⟩

/-- C10 (amended): an unsupported method version is not an error. For a descriptor whose
service resolves, when the sub-command loop and the options loop succeed the result of
`AddMsgServiceCommands` is the result of the method loop over the supported methods alone;
and in every case each `BuildMsgMethodCommand` call made after the sub-command loop is for a
supported method, and each command attached after that loop was built by such a call. -/
theorem unsupported_method_is_skipped (b : Builder) (cmd : Command)
    (d : ServiceCommandDescriptor) (calls : List BuildCall) (svc : ServiceDescriptor)
    (hne : d.Service ≠ "")
    (hsvc : b.FindDescriptorByName d.Service = .ok (Descriptor.service svc)) :
    ((subCommandsLoop b cmd d.SubCommands calls).out = Outcome.ok →
      ∀ rpcOptMap, buildRpcOptMap svc d.Options [] = .ok rpcOptMap →
        AddMsgServiceCommands b cmd d calls =
          methodLoop b rpcOptMap (svc.methods.filter (fun md => b.IsSupportedVersion md))
            (subCommandsLoop b cmd d.SubCommands calls).cmd
            (subCommandsLoop b cmd d.SubCommands calls).calls) ∧
    ∃ extra added,
      (AddMsgServiceCommands b cmd d calls).calls =
        (subCommandsLoop b cmd d.SubCommands calls).calls ++ extra ∧
      (AddMsgServiceCommands b cmd d calls).cmd.commands =
        (subCommandsLoop b cmd d.SubCommands calls).cmd.commands ++ added ∧
      (∀ c ∈ extra, b.IsSupportedVersion c.descriptor = true) ∧
      (∀ x ∈ added, ∃ c ∈ extra, BuildMsgMethodCommand b c.descriptor c.options = .ok x) := by
  constructor
  · intro h rpcOptMap hmap
    rcases hs : subCommandsLoop b cmd d.SubCommands calls with ⟨cmd1, calls1, o⟩
    rw [hs] at h
    simp only at h
    subst h
    rw [AddMsgServiceCommands_of_sub_ok b cmd d calls cmd1 calls1 hs]
    simp only [serviceCommands, hne, if_false, hsvc, hmap]
    exact methodLoop_filter_supported b rpcOptMap svc.methods cmd1 calls1
  · obtain ⟨extra, added, h1, h2, h3, h4⟩ := AddMsgServiceCommands_after_sub b cmd d calls
    exact ⟨extra, added, h1, h2, fun c hc => (h3 c hc).2.2, h4⟩

/-- Witness of `unsupported_method_is_skipped`: building `bank.Msg`, whose method `Burn` is
unsupported, is the method loop over `Send` and `UpdateParams`. -/
theorem unsupported_method_is_skipped_witness :
    AddMsgServiceCommands exampleBuilder exampleTx
      (ServiceCommandDescriptor.mk "bank.Msg" [] [] false "") [] =
      methodLoop exampleBuilder []
        [⟨"Send", "bank.MsgSend", "bank.MsgSendResponse"⟩,
          ⟨"UpdateParams", "bank.MsgUpdateParams", "bank.MsgUpdateParamsResponse"⟩]
        exampleTx [] :=
  (unsupported_method_is_skipped exampleBuilder exampleTx
    (ServiceCommandDescriptor.mk "bank.Msg" [] [] false "") [] ⟨"bank.Msg", exampleMethods⟩
    (by decide) rfl).1 rfl [] rfl

/-! ### Nodes that exist before synthesis are preserved -/

/-- A node is the same node as itself. -/
theorem Command.sameNode_refl (x : Command) : Command.sameNode x x :=
  ⟨rfl, rfl, rfl, rfl, rfl⟩

/-- Being the same node is transitive. -/
theorem Command.sameNode_trans {x y z : Command} (h1 : Command.sameNode x y)
    (h2 : Command.sameNode y z) : Command.sameNode x z :=
  ⟨h2.1.trans h1.1, h2.2.1.trans h1.2.1, h2.2.2.1.trans h1.2.2.1,
    h2.2.2.2.1.trans h1.2.2.2.1, h2.2.2.2.2.trans h1.2.2.2.2⟩

/-- Membership in the nodes reached along a non-empty path. -/
theorem Command.mem_nodesAt_cons (n : String) (p : List String) (c x : Command) :
    x ∈ Command.nodesAt (n :: p) c ↔
      ∃ ch ∈ c.commands, ch.name = n ∧ x ∈ Command.nodesAt p ch := by
  simp only [Command.nodesAt, List.mem_flatMap, List.mem_filter, decide_eq_true_eq]
  constructor
  · rintro ⟨ch, ⟨h1, h2⟩, h3⟩
    exact ⟨ch, h1, h2, h3⟩
  · rintro ⟨ch, h1, h2, h3⟩
    exact ⟨ch, ⟨h1, h2⟩, h3⟩

/-- Every tree preserves its own nodes. -/
theorem Preserved.refl (a : Command) : Preserved a a :=
  fun _ x hx => ⟨x, hx, Command.sameNode_refl x⟩

/-- Preservation composes. -/
theorem Preserved.trans {a c e : Command} (h1 : Preserved a c) (h2 : Preserved c e) :
    Preserved a e := by
  intro path x hx
  obtain ⟨y, hy, hxy⟩ := h1 path x hx
  obtain ⟨z, hz, hyz⟩ := h2 path y hy
  exact ⟨z, hz, Command.sameNode_trans hxy hyz⟩

/-- The root of a tree that preserves `a` is the same node as the root of `a`. -/
theorem Preserved.sameNode {a c : Command} (h : Preserved a c) : Command.sameNode a c := by
  obtain ⟨y, hy, hxy⟩ := h [] a (by simp [Command.nodesAt])
  simp only [Command.nodesAt, List.mem_singleton] at hy
  subst hy
  exact hxy

/-- A tree preserves `a` when its root is the same node and every child of `a` has a child
of the same name that preserves it. -/
theorem Preserved.of_children {a c : Command} (hroot : Command.sameNode a c)
    (hch : ∀ ch ∈ a.commands, ∃ ch2 ∈ c.commands, ch2.name = ch.name ∧ Preserved ch ch2) :
    Preserved a c := by
  intro path x hx
  cases path with
  | nil =>
    simp only [Command.nodesAt, List.mem_singleton] at hx
    subst hx
    exact ⟨c, by simp [Command.nodesAt], hroot⟩
  | cons n p =>
    obtain ⟨ch, hmem, hname, hxin⟩ := (Command.mem_nodesAt_cons n p a x).1 hx
    obtain ⟨ch2, hmem2, hname2, hpres⟩ := hch ch hmem
    obtain ⟨y, hy, hxy⟩ := hpres p x hxin
    exact ⟨y, (Command.mem_nodesAt_cons n p c y).2 ⟨ch2, hmem2, hname2.trans hname, hy⟩, hxy⟩

/-- Attaching a child preserves the tree. -/
theorem Preserved.of_addCommand (cmd x : Command) : Preserved cmd (cmd.AddCommand x) := by
  cases cmd with
  | mk n s r su f cs =>
    apply Preserved.of_children
    · exact ⟨rfl, rfl, rfl, rfl, rfl⟩
    · intro ch hch
      exact ⟨ch, by simp [Command.AddCommand, Command.commands] at hch ⊢; exact Or.inl hch,
        rfl, Preserved.refl ch⟩

/-- Appending children preserves the tree. -/
theorem Preserved.append (cmd : Command) (added : List Command) :
    Preserved cmd (Command.mk cmd.name cmd.short cmd.run cmd.silenceUsage cmd.flags
      (cmd.commands ++ added)) := by
  apply Preserved.of_children
  · exact ⟨rfl, rfl, rfl, rfl, rfl⟩
  · intro ch hch
    exact ⟨ch, by simp [Command.commands]; exact Or.inl hch, rfl, Preserved.refl ch⟩

/-- Every child has a counterpart after the first child named `n` is replaced by a node of
the same name that preserves it. -/
theorem Command.setFirst_preserves (n : String) (x2 : Command) (cs : List Command)
    (hx : ∀ X, cs.find? (fun c => c.name = n) = some X → Preserved X x2) :
    ∀ ch ∈ cs, ∃ ch2 ∈ Command.setFirst n x2 cs, ch2.name = ch.name ∧ Preserved ch ch2 := by
  induction cs with
  | nil => simp
  | cons c rest ih =>
    intro ch hch
    by_cases hc : c.name = n
    · have hX : Preserved c x2 := hx c (by simp [List.find?, hc])
      simp only [Command.setFirst, hc, if_true]
      rcases List.mem_cons.1 hch with rfl | hmem
      · exact ⟨x2, List.mem_cons_self _ _, hX.sameNode.1, hX⟩
      · exact ⟨ch, List.mem_cons_of_mem _ hmem, rfl, Preserved.refl ch⟩
    · simp only [Command.setFirst, hc, if_false]
      rcases List.mem_cons.1 hch with rfl | hmem
      · exact ⟨ch, List.mem_cons_self _ _, rfl, Preserved.refl ch⟩
      · have hx2 : ∀ X, rest.find? (fun c => c.name = n) = some X → Preserved X x2 := by
          intro X hX
          apply hx X
          simp [List.find?, hc, hX]
        obtain ⟨ch2, h1, h2, h3⟩ := ih hx2 ch hmem
        exact ⟨ch2, List.mem_cons_of_mem _ h1, h2, h3⟩

/-- Writing back a found child that was only extended preserves the tree. -/
theorem Preserved.setSubCommand (cmd : Command) (n : String) (X x2 : Command)
    (hfound : findSubCommand cmd n = some X) (hpres : Preserved X x2) :
    Preserved cmd (cmd.setSubCommand n x2) := by
  cases cmd with
  | mk nm s r su f cs =>
    apply Preserved.of_children
    · exact ⟨rfl, rfl, rfl, rfl, rfl⟩
    · apply Command.setFirst_preserves
      intro X2 hX2
      have : some X2 = some X := by
        rw [← hX2, ← hfound]
        rfl
      cases this
      exact hpres

/-- The service part of `AddMsgServiceCommands` preserves the tree. -/
theorem serviceCommands_preserved (b : Builder) (service : String)
    (options : List RpcCommandOptions) (cmd : Command) (calls : List BuildCall) :
    Preserved cmd (serviceCommands b service options cmd calls).cmd := by
  obtain ⟨extra, added, _, h2, _, _⟩ := serviceCommands_spec b service options cmd calls
  rw [h2]
  exact Preserved.append cmd added

mutual
/-- The whole of `AddMsgServiceCommands` preserves the tree, whatever the outcome. -/
theorem AddMsgServiceCommands_preserved (b : Builder) :
    ∀ (d : ServiceCommandDescriptor) (cmd : Command) (calls : List BuildCall),
      Preserved cmd (AddMsgServiceCommands b cmd d calls).cmd
  | ServiceCommandDescriptor.mk service options subs e sh, cmd, calls => by
    have hsub := subCommandsLoop_preserved b subs cmd calls
    by_cases hok : (subCommandsLoop b cmd subs calls).out = Outcome.ok
    · rcases hs : subCommandsLoop b cmd subs calls with ⟨cmd1, calls1, o⟩
      rw [hs] at hok hsub
      simp only at hok hsub
      subst hok
      rw [AddMsgServiceCommands_of_sub_ok b cmd
        (ServiceCommandDescriptor.mk service options subs e sh) calls cmd1 calls1 hs]
      exact hsub.trans (serviceCommands_preserved b _ _ cmd1 calls1)
    · rw [AddMsgServiceCommands_of_sub_not_ok b cmd
        (ServiceCommandDescriptor.mk service options subs e sh) calls hok]
      exact hsub
/-- The sub-command loop preserves the tree, whatever the outcome. -/
theorem subCommandsLoop_preserved (b : Builder) :
    ∀ (subs : List (String × ServiceCommandDescriptor)) (cmd : Command)
      (calls : List BuildCall), Preserved cmd (subCommandsLoop b cmd subs calls).cmd
  | [], cmd, calls => by
    rw [subCommandsLoop]
    exact Preserved.refl cmd
  | (cmdName, sd) :: rest, cmd, calls => by
    rw [subCommandsLoop]
    cases hfound : findSubCommand cmd cmdName with
    | none =>
      simp only [Option.isSome_none, Bool.false_eq_true, if_false]
      have ih2 := fun c l => subCommandsLoop_preserved b rest c l
      split
      · by_cases he : sd.EnhanceCustomCommand = true
        · simp only [he, if_true]
          exact ih2 _ _
        · simp only [he, if_false]
          exact (Preserved.of_addCommand cmd _).trans (ih2 _ _)
      · exact Preserved.refl cmd
    | some X =>
      simp only [Option.isSome_some, if_true]
      have ih1 := AddMsgServiceCommands_preserved b sd X calls
      have ih2 := fun c l => subCommandsLoop_preserved b rest c l
      have h1 : Preserved cmd (cmd.setSubCommand cmdName (AddMsgServiceCommands b X sd calls).cmd) :=
        Preserved.setSubCommand cmd cmdName X _ hfound ih1
      split
      · by_cases he : sd.EnhanceCustomCommand = true
        · simp only [he, if_true]
          exact h1.trans (ih2 _ _)
        · simp only [he, if_false]
          exact (h1.trans (Preserved.of_addCommand _ _)).trans (ih2 _ _)
      · exact h1
end

/-- The lookup of a child by name fails exactly when no child has the name. -/
theorem findSubCommand_eq_none (cmd : Command) (n : String) :
    findSubCommand cmd n = none ↔ n ∉ cmd.commands.map Command.name := by
  unfold findSubCommand
  rw [List.find?_eq_none]
  simp only [decide_eq_true_eq, List.mem_map, not_exists, not_and]

/-- The method loop attaches only commands whose name no child has yet: the names of the
attached commands are not names of earlier children and are pairwise distinct. -/
theorem methodLoop_added_names (b : Builder) (rpcOptMap : RpcOptMap)
    (ms : List MethodDescriptor) (cmd : Command) (calls : List BuildCall) :
    ∃ added,
      (methodLoop b rpcOptMap ms cmd calls).cmd.commands = cmd.commands ++ added ∧
      (∀ x ∈ added, findSubCommand cmd x.name = none) ∧
      (added.map Command.name).Nodup := by
  induction ms generalizing cmd calls with
  | nil => exact ⟨[], by simp [methodLoop], by simp, by simp⟩
  | cons md rest ih =>
    rw [methodLoop]
    by_cases hskip : (methodOptions rpcOptMap md).Skip = true
    · simp only [hskip, if_true]
      exact ih cmd calls
    · by_cases hsup : b.IsSupportedVersion md = true
      · have hskip2 : (methodOptions rpcOptMap md).Skip = false := by simpa using hskip
        simp only [hskip2, hsup, Bool.not_true, if_false, Bool.false_eq_true]
        cases hb : BuildMsgMethodCommand b md (methodOptions rpcOptMap md) with
        | error e => exact ⟨[], by simp, by simp, by simp⟩
        | ok methodCmd =>
          by_cases hf : (findSubCommand cmd methodCmd.name).isSome = true
          · simp only [hf, if_true]
            exact ih cmd _
          · simp only [hf, if_false, Bool.false_eq_true]
            have hnone : findSubCommand cmd methodCmd.name = none := by
              cases h : findSubCommand cmd methodCmd.name with
              | none => rfl
              | some v => simp [h] at hf
            obtain ⟨added, h1, h2, h3⟩ := ih (cmd.AddCommand methodCmd)
              (calls ++ [⟨md, methodOptions rpcOptMap md⟩])
            have hcs : (cmd.AddCommand methodCmd).commands = cmd.commands ++ [methodCmd] := by
              cases cmd; rfl
            refine ⟨methodCmd :: added, ?_, ?_, ?_⟩
            · rw [h1, hcs]; simp
            · intro x hx
              rcases List.mem_cons.1 hx with rfl | hx
              · exact hnone
              · have := (findSubCommand_eq_none _ _).1 (h2 x hx)
                rw [findSubCommand_eq_none]
                intro hmem
                apply this
                rw [hcs]
                simp only [List.map_append, List.mem_append]
                exact Or.inl hmem
            · simp only [List.map_cons, List.nodup_cons]
              refine ⟨?_, h3⟩
              intro hmem
              obtain ⟨x, hx, hname⟩ := List.mem_map.1 hmem
              have := (findSubCommand_eq_none _ _).1 (h2 x hx)
              apply this
              rw [hcs, hname]
              simp
      · have hsup2 : b.IsSupportedVersion md = false := by simpa using hsup
        have hskip2 : (methodOptions rpcOptMap md).Skip = false := by simpa using hskip
        simp only [hskip2, hsup2, Bool.not_false, if_true, if_false, Bool.false_eq_true]
        exact ih cmd calls

/-- The method loop keeps the names of the children of the parent pairwise distinct: this
loop checks `findSubCommand` before every `AddCommand`. -/
theorem methodLoop_keeps_names_distinct (b : Builder) (rpcOptMap : RpcOptMap)
    (ms : List MethodDescriptor) (cmd : Command) (calls : List BuildCall)
    (h : (cmd.commands.map Command.name).Nodup) :
    ((methodLoop b rpcOptMap ms cmd calls).cmd.commands.map Command.name).Nodup := by
  obtain ⟨added, h1, h2, h3⟩ := methodLoop_added_names b rpcOptMap ms cmd calls
  rw [h1, List.map_append]
  refine List.Nodup.append h h3 ?_
  intro n hn hn2
  obtain ⟨x, hx, hxn⟩ := List.mem_map.1 hn2
  have := (findSubCommand_eq_none cmd x.name).1 (h2 x hx)
  rw [hxn] at this
  exact this hn

/-- The service part attaches only commands whose name no child has yet. -/
theorem serviceCommands_added_names (b : Builder) (service : String)
    (options : List RpcCommandOptions) (cmd : Command) (calls : List BuildCall) :
    ∃ added,
      (serviceCommands b service options cmd calls).cmd.commands = cmd.commands ++ added ∧
      (∀ x ∈ added, findSubCommand cmd x.name = none) ∧
      (added.map Command.name).Nodup := by
  unfold serviceCommands
  by_cases hs : service = ""
  · simp only [hs, if_true]
    exact ⟨[], by simp, by simp, by simp⟩
  · simp only [hs, if_false]
    cases hfind : b.FindDescriptorByName service with
    | error e => exact ⟨[], by simp, by simp, by simp⟩
    | ok desc =>
      cases desc with
      | message n => exact ⟨[], by simp, by simp, by simp⟩
      | service svc =>
        simp only
        cases hmap : buildRpcOptMap svc options [] with
        | error e => exact ⟨[], by simp, by simp, by simp⟩
        | ok m => exact methodLoop_added_names b m svc.methods cmd calls

/-- C1: every node reachable at a path of names under the parent before
`AddMsgServiceCommands` is reachable at the same path, as the same node (same name, help
text, execution closure, `SilenceUsage` and flags), in the command the call leaves, whether
it ends well, with an error or with a panic; and a generated method command is attached only
when `findSubCommand` finds no child with its name: the commands attached after the
sub-command loop have names that no child had and that are pairwise distinct. -/
theorem existing_nodes_preserved (b : Builder) (cmd : Command)
    (d : ServiceCommandDescriptor) (calls : List BuildCall) (path : List String)
    (x : Command) (hx : x ∈ Command.nodesAt path cmd) :
    (∃ y ∈ Command.nodesAt path (AddMsgServiceCommands b cmd d calls).cmd,
      Command.sameNode x y) ∧
    ∃ added,
      (AddMsgServiceCommands b cmd d calls).cmd.commands =
        (subCommandsLoop b cmd d.SubCommands calls).cmd.commands ++ added ∧
      (∀ m ∈ added,
        findSubCommand (subCommandsLoop b cmd d.SubCommands calls).cmd m.name = none) ∧
      (added.map Command.name).Nodup := by
  refine ⟨AddMsgServiceCommands_preserved b d cmd calls path x hx, ?_⟩
  by_cases hok : (subCommandsLoop b cmd d.SubCommands calls).out = Outcome.ok
  · rcases hs : subCommandsLoop b cmd d.SubCommands calls with ⟨cmd1, calls1, o⟩
    rw [hs] at hok
    simp only at hok
    subst hok
    rw [AddMsgServiceCommands_of_sub_ok b cmd d calls cmd1 calls1 hs]
    exact serviceCommands_added_names b d.Service d.Options cmd1 calls1
  · rw [AddMsgServiceCommands_of_sub_not_ok b cmd d calls hok]
    exact ⟨[], by simp, by simp, by simp⟩

/-- Witness of `existing_nodes_preserved`: the hand-written child `bank` of `tx` is still
reachable at the path `bank` after synthesis of a descriptor that enhances it. -/
theorem existing_nodes_preserved_witness :
    (∃ y ∈ Command.nodesAt ["bank"] (AddMsgServiceCommands exampleBuilder exampleTx
        (ServiceCommandDescriptor.mk "bank.Msg" []
          [("bank", ServiceCommandDescriptor.mk "bank.Msg" [] [] true "")] false "") []).cmd,
      Command.sameNode
        (Command.mk "bank" "Bank transactions" (RunE.custom "bank") false [] []) y) ∧
    ∃ added,
      (AddMsgServiceCommands exampleBuilder exampleTx
        (ServiceCommandDescriptor.mk "bank.Msg" []
          [("bank", ServiceCommandDescriptor.mk "bank.Msg" [] [] true "")] false "")
        []).cmd.commands =
        (subCommandsLoop exampleBuilder exampleTx
          [("bank", ServiceCommandDescriptor.mk "bank.Msg" [] [] true "")] []).cmd.commands
          ++ added ∧
      (∀ m ∈ added,
        findSubCommand (subCommandsLoop exampleBuilder exampleTx
          [("bank", ServiceCommandDescriptor.mk "bank.Msg" [] [] true "")] []).cmd m.name =
          none) ∧
      (added.map Command.name).Nodup :=
  existing_nodes_preserved exampleBuilder exampleTx
    (ServiceCommandDescriptor.mk "bank.Msg" []
      [("bank", ServiceCommandDescriptor.mk "bank.Msg" [] [] true "")] false "") []
    ["bank"] (Command.mk "bank" "Bank transactions" (RunE.custom "bank") false [] [])
    (List.mem_singleton.2 rfl)

/-- C2, the failing input evaluated: the parent `tx` has the hand-written child `bank` and no
two siblings of the same name; the descriptor has the sub-command `bank` with
`EnhanceCustomCommand = false`. The build succeeds, the found child is passed to
`AddCommand` a second time, and the parent ends with two children named `bank`. -/
theorem found_sub_command_is_attached_twice :
    exampleTx.uniqueSiblings = true ∧
    (AddMsgServiceCommands exampleBuilder exampleTx
      (ServiceCommandDescriptor.mk "" []
        [("bank", ServiceCommandDescriptor.mk "bank.Msg" [] [] false "")] false "")
      []).out = Outcome.ok ∧
    (AddMsgServiceCommands exampleBuilder exampleTx
      (ServiceCommandDescriptor.mk "" []
        [("bank", ServiceCommandDescriptor.mk "bank.Msg" [] [] false "")] false "")
      []).cmd.commands.map Command.name = ["bank", "bank"] ∧
    (AddMsgServiceCommands exampleBuilder exampleTx
      (ServiceCommandDescriptor.mk "" []
        [("bank", ServiceCommandDescriptor.mk "bank.Msg" [] [] false "")] false "")
      []).cmd.uniqueSiblings = false := by
  refine ⟨by decide, by rfl, by rfl, by decide⟩

/-! ### The call log does not influence the build -/

/-- The command and outcome of the method loop do not depend on the call log. -/
theorem methodLoop_calls_irrelevant (b : Builder) (rpcOptMap : RpcOptMap)
    (ms : List MethodDescriptor) (cmd : Command) (calls calls2 : List BuildCall) :
    (methodLoop b rpcOptMap ms cmd calls).cmd = (methodLoop b rpcOptMap ms cmd calls2).cmd ∧
    (methodLoop b rpcOptMap ms cmd calls).out = (methodLoop b rpcOptMap ms cmd calls2).out := by
  induction ms generalizing cmd calls calls2 with
  | nil => exact ⟨rfl, rfl⟩
  | cons md rest ih =>
    rw [methodLoop, methodLoop]
    by_cases hskip : (methodOptions rpcOptMap md).Skip = true
    · simp only [hskip, if_true]
      exact ih cmd calls calls2
    · by_cases hsup : b.IsSupportedVersion md = true
      · have hskip2 : (methodOptions rpcOptMap md).Skip = false := by simpa using hskip
        simp only [hskip2, hsup, Bool.not_true, if_false, Bool.false_eq_true]
        cases hb : BuildMsgMethodCommand b md (methodOptions rpcOptMap md) with
        | error e => exact ⟨rfl, rfl⟩
        | ok methodCmd =>
          by_cases hf : (findSubCommand cmd methodCmd.name).isSome = true
          · simp only [hf, if_true]
            exact ih cmd _ _
          · simp only [hf, if_false, Bool.false_eq_true]
            exact ih _ _ _
      · have hsup2 : b.IsSupportedVersion md = false := by simpa using hsup
        have hskip2 : (methodOptions rpcOptMap md).Skip = false := by simpa using hskip
        simp only [hskip2, hsup2, Bool.not_false, if_true, if_false, Bool.false_eq_true]
        exact ih cmd calls calls2

/-- The command and outcome of the service part do not depend on the call log. -/
theorem serviceCommands_calls_irrelevant (b : Builder) (service : String)
    (options : List RpcCommandOptions) (cmd : Command) (calls calls2 : List BuildCall) :
    (serviceCommands b service options cmd calls).cmd =
      (serviceCommands b service options cmd calls2).cmd ∧
    (serviceCommands b service options cmd calls).out =
      (serviceCommands b service options cmd calls2).out := by
  unfold serviceCommands
  by_cases hs : service = ""
  · simp only [hs, if_true, and_self]
  · simp only [hs, if_false]
    cases hfind : b.FindDescriptorByName service with
    | error e => exact ⟨rfl, rfl⟩
    | ok desc =>
      cases desc with
      | message n => exact ⟨rfl, rfl⟩
      | service svc =>
        simp only
        cases hmap : buildRpcOptMap svc options [] with
        | error e => exact ⟨rfl, rfl⟩
        | ok m => exact methodLoop_calls_irrelevant b m svc.methods cmd calls calls2

mutual
/-- The command and outcome of `AddMsgServiceCommands` do not depend on the call log. -/
theorem AddMsgServiceCommands_calls_irrelevant (b : Builder) :
    ∀ (d : ServiceCommandDescriptor) (cmd : Command) (calls calls2 : List BuildCall),
      (AddMsgServiceCommands b cmd d calls).cmd = (AddMsgServiceCommands b cmd d calls2).cmd ∧
      (AddMsgServiceCommands b cmd d calls).out = (AddMsgServiceCommands b cmd d calls2).out
  | ServiceCommandDescriptor.mk service options subs e sh, cmd, calls, calls2 => by
    have hsub := subCommandsLoop_calls_irrelevant b subs cmd calls calls2
    rw [AddMsgServiceCommands_eq, AddMsgServiceCommands_eq]
    simp only [ServiceCommandDescriptor.SubCommands, ServiceCommandDescriptor.Service,
      ServiceCommandDescriptor.Options]
    rcases hs : subCommandsLoop b cmd subs calls with ⟨c1, l1, o1⟩
    rcases hs2 : subCommandsLoop b cmd subs calls2 with ⟨c2, l2, o2⟩
    rw [hs, hs2] at hsub
    simp only at hsub
    obtain ⟨hc, ho⟩ := hsub
    subst hc ho
    cases o1 with
    | ok => exact serviceCommands_calls_irrelevant b service options c1 l1 l2
    | error e => exact ⟨rfl, rfl⟩
    | panic r => exact ⟨rfl, rfl⟩
/-- The command and outcome of the sub-command loop do not depend on the call log. -/
theorem subCommandsLoop_calls_irrelevant (b : Builder) :
    ∀ (subs : List (String × ServiceCommandDescriptor)) (cmd : Command)
      (calls calls2 : List BuildCall),
      (subCommandsLoop b cmd subs calls).cmd = (subCommandsLoop b cmd subs calls2).cmd ∧
      (subCommandsLoop b cmd subs calls).out = (subCommandsLoop b cmd subs calls2).out
  | [], cmd, calls, calls2 => by
    rw [subCommandsLoop, subCommandsLoop]
    exact ⟨rfl, rfl⟩
  | (cmdName, sd) :: rest, cmd, calls, calls2 => by
    rw [subCommandsLoop, subCommandsLoop]
    have ih1 := fun c => AddMsgServiceCommands_calls_irrelevant b sd c calls calls2
    have ih2 := fun c l l2 => subCommandsLoop_calls_irrelevant b rest c l l2
    generalize hsc : (match findSubCommand cmd cmdName with
      | some c => c
      | none => topLevelCmd cmdName (subCommandShort sd)) = subCmd
    obtain ⟨hc, ho⟩ := ih1 subCmd
    rw [← hc, ← ho]
    cases (AddMsgServiceCommands b subCmd sd calls).out with
    | ok => exact ih2 _ _ _
    | error e => exact ⟨rfl, rfl⟩
    | panic r => exact ⟨rfl, rfl⟩
end

/-! ### Reachable paths -/

/-- A path is reachable exactly when some node is reached along it. -/
theorem Command.hasPath_iff (c : Command) (p : List String) :
    c.hasPath p = true ↔ ∃ x, x ∈ Command.nodesAt p c := by
  unfold Command.hasPath
  cases h : Command.nodesAt p c with
  | nil => simp
  | cons x xs => simp

/-- The empty path is reachable. -/
theorem Command.hasPath_nil (c : Command) : c.hasPath [] = true := by
  rw [Command.hasPath_iff]
  exact ⟨c, by simp [Command.nodesAt]⟩

/-- A non-empty path is reachable through a child of the first name. -/
theorem Command.hasPath_cons (c : Command) (n : String) (p : List String) :
    c.hasPath (n :: p) = true ↔
      ∃ ch ∈ c.commands, ch.name = n ∧ ch.hasPath p = true := by
  rw [Command.hasPath_iff]
  constructor
  · rintro ⟨x, hx⟩
    obtain ⟨ch, h1, h2, h3⟩ := (Command.mem_nodesAt_cons n p c x).1 hx
    exact ⟨ch, h1, h2, (Command.hasPath_iff ch p).2 ⟨x, h3⟩⟩
  · rintro ⟨ch, h1, h2, h3⟩
    obtain ⟨x, hx⟩ := (Command.hasPath_iff ch p).1 h3
    exact ⟨x, (Command.mem_nodesAt_cons n p c x).2 ⟨ch, h1, h2, hx⟩⟩

/-- Preservation keeps every path reachable. -/
theorem Preserved.hasPath {a c : Command} (h : Preserved a c) (p : List String)
    (hp : a.hasPath p = true) : c.hasPath p = true := by
  obtain ⟨x, hx⟩ := (Command.hasPath_iff a p).1 hp
  obtain ⟨y, hy, _⟩ := h p x hx
  exact (Command.hasPath_iff c p).2 ⟨y, hy⟩

/-! ### One iteration of the sub-command loop -/

/-- A child found under a name has that name. -/
theorem findSubCommand_name {cmd : Command} {n : String} {X : Command}
    (h : findSubCommand cmd n = some X) : X.name = n := by
  have := List.find?_some h
  simpa using this

/-- A child found under a name is a child. -/
theorem findSubCommand_mem {cmd : Command} {n : String} {X : Command}
    (h : findSubCommand cmd n = some X) : X ∈ cmd.commands :=
  List.mem_of_find?_eq_some h

/-- The command an entry works on has the name of the entry. -/
theorem subCommandFor_name (cmd : Command) (k : String) (sd : ServiceCommandDescriptor) :
    (subCommandFor cmd k sd).name = k := by
  unfold subCommandFor
  cases h : findSubCommand cmd k with
  | none => rfl
  | some X => exact findSubCommand_name h

/-- The command an entry produces has the name of the entry. -/
theorem entryCommand_name (b : Builder) (cmd : Command) (k : String)
    (sd : ServiceCommandDescriptor) : (entryCommand b cmd k sd).name = k := by
  have h := (AddMsgServiceCommands_preserved b sd (subCommandFor cmd k sd) []).sameNode
  exact h.1.trans (subCommandFor_name cmd k sd)

/-- The command an entry produces preserves the command it works on. -/
theorem entryCommand_preserved (b : Builder) (cmd : Command) (k : String)
    (sd : ServiceCommandDescriptor) :
    Preserved (subCommandFor cmd k sd) (entryCommand b cmd k sd) :=
  AddMsgServiceCommands_preserved b sd (subCommandFor cmd k sd) []

/-- The children after one iteration. -/
theorem afterSubCommand_commands (b : Builder) (cmd : Command) (k : String)
    (sd : ServiceCommandDescriptor) :
    (afterSubCommand b cmd k sd).commands =
      (if (findSubCommand cmd k).isSome then
          Command.setFirst k (entryCommand b cmd k sd) cmd.commands
        else cmd.commands) ++
      (if sd.EnhanceCustomCommand then [] else [entryCommand b cmd k sd]) := by
  cases cmd with
  | mk nm s r su f cs =>
    unfold afterSubCommand
    by_cases hf : (findSubCommand (Command.mk nm s r su f cs) k).isSome = true <;>
      by_cases he : sd.EnhanceCustomCommand = true <;>
      simp [hf, he, Command.setSubCommand, Command.AddCommand, Command.commands]

/-- Replacing the first child named `k` by a node named `k` does not change what is found
under another name. -/
theorem Command.find_setFirst_ne (k k2 : String) (x : Command) (cs : List Command)
    (hx : x.name = k) (hne : k2 ≠ k) :
    (Command.setFirst k x cs).find? (fun c => c.name = k2) =
      cs.find? (fun c => c.name = k2) := by
  induction cs with
  | nil => rfl
  | cons c rest ih =>
    by_cases hc : c.name = k
    · have h1 : ¬ c.name = k2 := fun h => hne (h.symm.trans hc)
      have h2 : ¬ x.name = k2 := fun h => hne (h.symm.trans hx)
      simp [Command.setFirst, hc, List.find?, h2, hne.symm]
    · simp only [Command.setFirst, hc, if_false, List.find?, ih]

/-- One iteration for the entry `k` does not change what is found under another name. -/
theorem findSubCommand_afterSubCommand (b : Builder) (cmd : Command) (k k2 : String)
    (sd : ServiceCommandDescriptor) (hne : k2 ≠ k) :
    findSubCommand (afterSubCommand b cmd k sd) k2 = findSubCommand cmd k2 := by
  have hname := entryCommand_name b cmd k sd
  have hx : ¬ (entryCommand b cmd k sd).name = k2 := fun h => hne (h.symm.trans hname)
  unfold findSubCommand
  rw [afterSubCommand_commands, List.find?_append]
  have htail : (if sd.EnhanceCustomCommand then []
      else [entryCommand b cmd k sd]).find? (fun c => c.name = k2) = none := by
    by_cases he : sd.EnhanceCustomCommand = true <;> simp [he, List.find?, hx]
  rw [htail]
  by_cases hf : (cmd.commands.find? (fun c => c.name = k)).isSome = true
  · have hf2 : (findSubCommand cmd k).isSome = true := hf
    simp only [hf2, if_true, Command.find_setFirst_ne k k2 _ _ hname hne, Option.or_none]
  · have hf2 : ¬ (findSubCommand cmd k).isSome = true := hf
    simp only [hf2, if_false, Option.or_none, Bool.false_eq_true]

/-- An element of the list after replacement is the new node or an old element. -/
theorem Command.mem_setFirst {k : String} {x ch : Command} {cs : List Command}
    (h : ch ∈ Command.setFirst k x cs) : ch = x ∨ ch ∈ cs := by
  induction cs with
  | nil => simp [Command.setFirst] at h
  | cons c rest ih =>
    by_cases hc : c.name = k
    · simp only [Command.setFirst, hc, if_true, List.mem_cons] at h
      rcases h with h | h
      · exact Or.inl h
      · exact Or.inr (List.mem_cons_of_mem _ h)
    · simp only [Command.setFirst, hc, if_false, List.mem_cons] at h
      rcases h with h | h
      · exact Or.inr (by rw [h]; exact List.mem_cons_self _ _)
      · rcases ih h with h2 | h2
        · exact Or.inl h2
        · exact Or.inr (List.mem_cons_of_mem _ h2)

/-- When a child named `k` exists, the new node is in the list after replacement. -/
theorem Command.self_mem_setFirst (k : String) (x : Command) (cs : List Command)
    (h : (cs.find? (fun c => c.name = k)).isSome = true) : x ∈ Command.setFirst k x cs := by
  induction cs with
  | nil => simp at h
  | cons c rest ih =>
    by_cases hc : c.name = k
    · simp [Command.setFirst, hc]
    · simp only [Command.setFirst, hc, if_false]
      apply List.mem_cons_of_mem
      apply ih
      simpa [List.find?, hc] using h

/-- The paths through the children after one iteration are those through the children
before, and those through the command of the entry when it was found or is attached. -/
theorem afterSubCommand_paths (b : Builder) (cmd : Command) (k : String)
    (sd : ServiceCommandDescriptor) (n : String) (p : List String) :
    (∃ ch ∈ (afterSubCommand b cmd k sd).commands, ch.name = n ∧ ch.hasPath p = true) ↔
      ((∃ ch ∈ cmd.commands, ch.name = n ∧ ch.hasPath p = true) ∨
        (((findSubCommand cmd k).isSome = true ∨ sd.EnhanceCustomCommand = false) ∧
          k = n ∧ (entryCommand b cmd k sd).hasPath p = true)) := by
  have hname := entryCommand_name b cmd k sd
  rw [afterSubCommand_commands]
  constructor
  · rintro ⟨ch, hmem, hn, hp⟩
    rcases List.mem_append.1 hmem with h | h
    · by_cases hf : (findSubCommand cmd k).isSome = true
      · simp only [hf, if_true] at h
        rcases Command.mem_setFirst h with h2 | h2
        · subst h2
          exact Or.inr ⟨Or.inl hf, hname.symm.trans hn, hp⟩
        · exact Or.inl ⟨ch, h2, hn, hp⟩
      · simp only [hf, if_false, Bool.false_eq_true] at h
        exact Or.inl ⟨ch, h, hn, hp⟩
    · by_cases he : sd.EnhanceCustomCommand = true
      · simp [he] at h
      · simp only [he, if_false, List.mem_singleton, Bool.false_eq_true] at h
        subst h
        exact Or.inr ⟨Or.inr (by simpa using he), hname.symm.trans hn, hp⟩
  · rintro (⟨ch, hmem, hn, hp⟩ | ⟨hor, hkn, hp⟩)
    · by_cases hf : (findSubCommand cmd k).isSome = true
      · simp only [hf, if_true]
        have hX : ∀ X, cmd.commands.find? (fun c => c.name = k) = some X →
            Preserved X (entryCommand b cmd k sd) := by
          intro X hX
          have hsc : subCommandFor cmd k sd = X := by
            unfold subCommandFor
            have : findSubCommand cmd k = some X := hX
            rw [this]
          rw [← hsc]
          exact entryCommand_preserved b cmd k sd
        obtain ⟨ch2, h1, h2, h3⟩ :=
          Command.setFirst_preserves k (entryCommand b cmd k sd) cmd.commands hX ch hmem
        exact ⟨ch2, List.mem_append_left _ h1, h2.trans hn, h3.hasPath p hp⟩
      · simp only [hf, if_false, Bool.false_eq_true]
        exact ⟨ch, List.mem_append_left _ hmem, hn, hp⟩
    · by_cases he : sd.EnhanceCustomCommand = true
      · rcases hor with hf | he2
        · simp only [hf, if_true]
          exact ⟨_, List.mem_append_left _
            (Command.self_mem_setFirst k _ cmd.commands hf), hname.trans hkn, hp⟩
        · rw [he] at he2
          exact Bool.noConfusion he2
      · simp only [he, if_false, Bool.false_eq_true]
        exact ⟨_, List.mem_append_right _ (List.mem_singleton.2 rfl), hname.trans hkn, hp⟩

/-! ### The sub-command loop in closed form -/

/-- The first iteration of the sub-command loop, written with `subCommandFor`. -/
theorem subCommandsLoop_cons (b : Builder) (cmd : Command) (k : String)
    (sd : ServiceCommandDescriptor) (rest : List (String × ServiceCommandDescriptor))
    (calls : List BuildCall) :
    subCommandsLoop b cmd ((k, sd) :: rest) calls =
      match (AddMsgServiceCommands b (subCommandFor cmd k sd) sd calls).out with
      | Outcome.ok => subCommandsLoop b
          (if sd.EnhanceCustomCommand then
            (if (findSubCommand cmd k).isSome then
              cmd.setSubCommand k (AddMsgServiceCommands b (subCommandFor cmd k sd) sd calls).cmd
            else cmd)
          else (if (findSubCommand cmd k).isSome then
              cmd.setSubCommand k (AddMsgServiceCommands b (subCommandFor cmd k sd) sd calls).cmd
            else cmd).AddCommand
              (AddMsgServiceCommands b (subCommandFor cmd k sd) sd calls).cmd)
          rest (AddMsgServiceCommands b (subCommandFor cmd k sd) sd calls).calls
      | out => ⟨if (findSubCommand cmd k).isSome then
              cmd.setSubCommand k (AddMsgServiceCommands b (subCommandFor cmd k sd) sd calls).cmd
            else cmd,
          (AddMsgServiceCommands b (subCommandFor cmd k sd) sd calls).calls, out⟩ := by
  rw [subCommandsLoop]
  rfl

/-- The first iteration of the sub-command loop when the recursive call ends well. -/
theorem subCommandsLoop_cons_ok (b : Builder) (cmd : Command) (k : String)
    (sd : ServiceCommandDescriptor) (rest : List (String × ServiceCommandDescriptor))
    (calls : List BuildCall) (h : entryOutcome b cmd k sd = Outcome.ok) :
    (subCommandsLoop b cmd ((k, sd) :: rest) calls).cmd =
      (subCommandsLoop b (afterSubCommand b cmd k sd) rest []).cmd ∧
    (subCommandsLoop b cmd ((k, sd) :: rest) calls).out =
      (subCommandsLoop b (afterSubCommand b cmd k sd) rest []).out := by
  obtain ⟨hc, ho⟩ :=
    AddMsgServiceCommands_calls_irrelevant b sd (subCommandFor cmd k sd) calls []
  have ho2 : (AddMsgServiceCommands b (subCommandFor cmd k sd) sd calls).out = Outcome.ok :=
    ho.trans h
  rw [subCommandsLoop_cons, ho2, hc]
  exact subCommandsLoop_calls_irrelevant b rest _ _ []

/-- The first iteration of the sub-command loop when the recursive call does not end well:
the loop ends as the recursive call ended. -/
theorem subCommandsLoop_cons_not_ok (b : Builder) (cmd : Command) (k : String)
    (sd : ServiceCommandDescriptor) (rest : List (String × ServiceCommandDescriptor))
    (calls : List BuildCall) (h : entryOutcome b cmd k sd ≠ Outcome.ok) :
    (subCommandsLoop b cmd ((k, sd) :: rest) calls).out = entryOutcome b cmd k sd := by
  obtain ⟨_, ho⟩ :=
    AddMsgServiceCommands_calls_irrelevant b sd (subCommandFor cmd k sd) calls []
  have ho2 : (AddMsgServiceCommands b (subCommandFor cmd k sd) sd calls).out =
      entryOutcome b cmd k sd := ho
  rw [subCommandsLoop_cons, ho2]
  cases hout : entryOutcome b cmd k sd with
  | ok => exact absurd hout h
  | error e => rfl
  | panic r => rfl

/-- An iteration for the entry `k` does not change what an entry of another name works on. -/
theorem subCommandFor_afterSubCommand (b : Builder) (cmd : Command) (k k2 : String)
    (sd sd2 : ServiceCommandDescriptor) (hne : k2 ≠ k) :
    subCommandFor (afterSubCommand b cmd k sd) k2 sd2 = subCommandFor cmd k2 sd2 := by
  unfold subCommandFor
  rw [findSubCommand_afterSubCommand b cmd k k2 sd hne]

/-- With distinct keys, the sub-command loop ends well exactly when the recursive call of
every entry, taken on the parent as it was before the loop, ends well. -/
theorem subCommandsLoop_ok_iff (b : Builder) :
    ∀ (subs : List (String × ServiceCommandDescriptor)) (cmd : Command)
      (calls : List BuildCall), (subs.map Prod.fst).Nodup →
      ((subCommandsLoop b cmd subs calls).out = Outcome.ok ↔
        ∀ e ∈ subs, entryOutcome b cmd e.1 e.2 = Outcome.ok)
  | [], cmd, calls, _ => by
    rw [subCommandsLoop]
    simp
  | (k, sd) :: rest, cmd, calls, hnd => by
    have hnd2 : (rest.map Prod.fst).Nodup := (List.nodup_cons.1 hnd).2
    have hk : ∀ e ∈ rest, e.1 ≠ k := by
      intro e he heq
      exact (List.nodup_cons.1 hnd).1 (List.mem_map.2 ⟨e, he, heq⟩)
    by_cases h : entryOutcome b cmd k sd = Outcome.ok
    · rw [(subCommandsLoop_cons_ok b cmd k sd rest calls h).2,
        subCommandsLoop_ok_iff b rest (afterSubCommand b cmd k sd) [] hnd2]
      constructor
      · intro hall e he
        rcases List.mem_cons.1 he with rfl | he
        · exact h
        · have := hall e he
          unfold entryOutcome at this ⊢
          rwa [subCommandFor_afterSubCommand b cmd k e.1 sd e.2 (hk e he)] at this
      · intro hall e he
        have := hall e (List.mem_cons_of_mem _ he)
        unfold entryOutcome at this ⊢
        rwa [subCommandFor_afterSubCommand b cmd k e.1 sd e.2 (hk e he)]
    · rw [subCommandsLoop_cons_not_ok b cmd k sd rest calls h]
      constructor
      · intro h2
        exact absurd h2 h
      · intro hall
        exact hall (k, sd) (List.mem_cons_self _ _)

/-- With distinct keys, when the sub-command loop ends well the paths through the children
it leaves are those through the children before, and those through the command of every
entry that found a child or attaches its command. -/
theorem subCommandsLoop_paths (b : Builder) :
    ∀ (subs : List (String × ServiceCommandDescriptor)) (cmd : Command)
      (calls : List BuildCall), (subs.map Prod.fst).Nodup →
      (subCommandsLoop b cmd subs calls).out = Outcome.ok →
      ∀ (n : String) (p : List String),
        ((∃ ch ∈ (subCommandsLoop b cmd subs calls).cmd.commands,
            ch.name = n ∧ ch.hasPath p = true) ↔
          ((∃ ch ∈ cmd.commands, ch.name = n ∧ ch.hasPath p = true) ∨
            ∃ e ∈ subs,
              ((findSubCommand cmd e.1).isSome = true ∨ e.2.EnhanceCustomCommand = false) ∧
              e.1 = n ∧ (entryCommand b cmd e.1 e.2).hasPath p = true))
  | [], cmd, calls, _, _, n, p => by
    rw [subCommandsLoop]
    simp
  | (k, sd) :: rest, cmd, calls, hnd, hok, n, p => by
    have hnd2 : (rest.map Prod.fst).Nodup := (List.nodup_cons.1 hnd).2
    have hk : ∀ e ∈ rest, e.1 ≠ k := by
      intro e he heq
      exact (List.nodup_cons.1 hnd).1 (List.mem_map.2 ⟨e, he, heq⟩)
    have h : entryOutcome b cmd k sd = Outcome.ok :=
      (subCommandsLoop_ok_iff b _ cmd calls hnd).1 hok (k, sd) (List.mem_cons_self _ _)
    obtain ⟨hc, ho⟩ := subCommandsLoop_cons_ok b cmd k sd rest calls h
    rw [hc]
    rw [ho] at hok
    rw [subCommandsLoop_paths b rest (afterSubCommand b cmd k sd) [] hnd2 hok n p,
      afterSubCommand_paths b cmd k sd n p]
    have hentry : ∀ e ∈ rest,
        ((findSubCommand (afterSubCommand b cmd k sd) e.1).isSome = true ∨
            e.2.EnhanceCustomCommand = false) ∧
          e.1 = n ∧ (entryCommand b (afterSubCommand b cmd k sd) e.1 e.2).hasPath p = true ↔
        ((findSubCommand cmd e.1).isSome = true ∨ e.2.EnhanceCustomCommand = false) ∧
          e.1 = n ∧ (entryCommand b cmd e.1 e.2).hasPath p = true := by
      intro e he
      unfold entryCommand
      rw [findSubCommand_afterSubCommand b cmd k e.1 sd (hk e he),
        subCommandFor_afterSubCommand b cmd k e.1 sd e.2 (hk e he)]
    constructor
    · rintro ((h1 | h1) | ⟨e, he, h2⟩)
      · exact Or.inl h1
      · exact Or.inr ⟨(k, sd), List.mem_cons_self _ _, h1⟩
      · exact Or.inr ⟨e, List.mem_cons_of_mem _ he, (hentry e he).1 h2⟩
    · rintro (h1 | ⟨e, he, h2⟩)
      · exact Or.inl (Or.inl h1)
      · rcases List.mem_cons.1 he with rfl | he
        · exact Or.inl (Or.inr h2)
        · exact Or.inr ⟨e, he, (hentry e he).2 h2⟩

/-! ### Commands with the same reachable paths -/

/-- Two commands have the same paths exactly when their children carry the same paths. -/
theorem samePaths_iff (c1 c2 : Command) :
    SamePaths c1 c2 ↔
      ∀ (n : String) (p : List String),
        (∃ ch ∈ c1.commands, ch.name = n ∧ ch.hasPath p = true) ↔
          (∃ ch ∈ c2.commands, ch.name = n ∧ ch.hasPath p = true) := by
  constructor
  · intro h n p
    rw [← Command.hasPath_cons, ← Command.hasPath_cons, h (n :: p)]
  · intro h p
    cases p with
    | nil => rw [Command.hasPath_nil, Command.hasPath_nil]
    | cons n p =>
      rw [Bool.eq_iff_iff, Command.hasPath_cons, Command.hasPath_cons]
      exact h n p

/-- Commands with the same paths agree on whether a child has a given name. -/
theorem SamePaths.findSubCommand_isSome {c1 c2 : Command} (h : SamePaths c1 c2)
    (n : String) : (findSubCommand c1 n).isSome = (findSubCommand c2 n).isSome := by
  have key : ∀ c : Command, (findSubCommand c n).isSome = true ↔
      ∃ ch ∈ c.commands, ch.name = n ∧ ch.hasPath [] = true := by
    intro c
    unfold findSubCommand
    rw [List.find?_isSome]
    constructor
    · rintro ⟨x, hx, hn⟩
      exact ⟨x, hx, by simpa using hn, Command.hasPath_nil x⟩
    · rintro ⟨x, hx, hn, _⟩
      exact ⟨x, hx, by simpa using hn⟩
  rw [Bool.eq_iff_iff, key, key]
  exact (samePaths_iff c1 c2).1 h n []

/-- Attaching the same child keeps the paths the same. -/
theorem SamePaths.after_addCommand {c1 c2 : Command} (h : SamePaths c1 c2) (x : Command) :
    SamePaths (c1.AddCommand x) (c2.AddCommand x) := by
  have hcs : ∀ c : Command, (c.AddCommand x).commands = c.commands ++ [x] := by
    intro c; cases c; rfl
  rw [samePaths_iff]
  intro n p
  have h0 := (samePaths_iff c1 c2).1 h n p
  rw [hcs, hcs]
  constructor
  · rintro ⟨ch, hmem, hn, hp⟩
    rcases List.mem_append.1 hmem with hm | hm
    · obtain ⟨ch2, h1, h2, h3⟩ := h0.1 ⟨ch, hm, hn, hp⟩
      exact ⟨ch2, List.mem_append_left _ h1, h2, h3⟩
    · exact ⟨ch, List.mem_append_right _ hm, hn, hp⟩
  · rintro ⟨ch, hmem, hn, hp⟩
    rcases List.mem_append.1 hmem with hm | hm
    · obtain ⟨ch2, h1, h2, h3⟩ := h0.2 ⟨ch, hm, hn, hp⟩
      exact ⟨ch2, List.mem_append_left _ h1, h2, h3⟩
    · exact ⟨ch, List.mem_append_right _ hm, hn, hp⟩

/-- On commands with the same paths the method loop ends the same way and leaves commands
with the same paths. -/
theorem methodLoop_samePaths (b : Builder) (rpcOptMap : RpcOptMap)
    (ms : List MethodDescriptor) (c1 c2 : Command) (l1 l2 : List BuildCall)
    (h : SamePaths c1 c2) :
    SamePaths (methodLoop b rpcOptMap ms c1 l1).cmd (methodLoop b rpcOptMap ms c2 l2).cmd ∧
    (methodLoop b rpcOptMap ms c1 l1).out = (methodLoop b rpcOptMap ms c2 l2).out := by
  induction ms generalizing c1 c2 l1 l2 with
  | nil => exact ⟨h, rfl⟩
  | cons md rest ih =>
    rw [methodLoop, methodLoop]
    by_cases hskip : (methodOptions rpcOptMap md).Skip = true
    · simp only [hskip, if_true]
      exact ih c1 c2 l1 l2 h
    · by_cases hsup : b.IsSupportedVersion md = true
      · have hskip2 : (methodOptions rpcOptMap md).Skip = false := by simpa using hskip
        simp only [hskip2, hsup, Bool.not_true, if_false, Bool.false_eq_true]
        cases hb : BuildMsgMethodCommand b md (methodOptions rpcOptMap md) with
        | error e => exact ⟨h, rfl⟩
        | ok methodCmd =>
          simp only [← h.findSubCommand_isSome methodCmd.name]
          by_cases hf : (findSubCommand c1 methodCmd.name).isSome = true
          · simp only [hf, if_true]
            exact ih c1 c2 _ _ h
          · simp only [hf, if_false, Bool.false_eq_true]
            exact ih _ _ _ _ (h.after_addCommand methodCmd)
      · have hsup2 : b.IsSupportedVersion md = false := by simpa using hsup
        have hskip2 : (methodOptions rpcOptMap md).Skip = false := by simpa using hskip
        simp only [hskip2, hsup2, Bool.not_false, if_true, if_false, Bool.false_eq_true]
        exact ih c1 c2 l1 l2 h

/-- On commands with the same paths the service part ends the same way and leaves commands
with the same paths. -/
theorem serviceCommands_samePaths (b : Builder) (service : String)
    (options : List RpcCommandOptions) (c1 c2 : Command) (l1 l2 : List BuildCall)
    (h : SamePaths c1 c2) :
    SamePaths (serviceCommands b service options c1 l1).cmd
      (serviceCommands b service options c2 l2).cmd ∧
    (serviceCommands b service options c1 l1).out =
      (serviceCommands b service options c2 l2).out := by
  unfold serviceCommands
  by_cases hs : service = ""
  · simp only [hs, if_true, and_true]
    exact h
  · simp only [hs, if_false]
    cases hfind : b.FindDescriptorByName service with
    | error e => exact ⟨h, rfl⟩
    | ok desc =>
      cases desc with
      | message n => exact ⟨h, rfl⟩
      | service svc =>
        simp only
        cases hmap : buildRpcOptMap svc options [] with
        | error e => exact ⟨h, rfl⟩
        | ok m => exact methodLoop_samePaths b m svc.methods c1 c2 l1 l2 h

/-! ### Descriptors that are the same tree of maps -/

/-- The fields of two descriptors that are the same tree of maps. -/
theorem sameMaps_fields {d d2 : ServiceCommandDescriptor} (h : sameMaps d d2 = true) :
    d.Service = d2.Service ∧ d.Options = d2.Options ∧
      d.EnhanceCustomCommand = d2.EnhanceCustomCommand ∧ d.Short = d2.Short ∧
      sameEntries d.SubCommands d2.SubCommands = true := by
  cases d with
  | mk s o subs e sh =>
    rw [sameMaps] at h
    simp only [Bool.and_eq_true, decide_eq_true_eq] at h
    obtain ⟨⟨⟨⟨h1, h2⟩, h3⟩, h4⟩, h5⟩ := h
    exact ⟨h1, h2, h3, h4, h5⟩

/-- Every entry of the first enumeration has its key in the second, bound to the same
sub-descriptor up to order. -/
theorem sameEntries_forward :
    ∀ (l l2 : List (String × ServiceCommandDescriptor)), sameEntries l l2 = true →
      ∀ e ∈ l, ∃ e2 ∈ l2, e2.1 = e.1 ∧ sameMaps e.2 e2.2 = true
  | [], _, _, e, he => by simp at he
  | (k, d) :: rest, l2, h, e, he => by
    rw [sameEntries] at h
    cases hfind : l2.find? (fun e2 => e2.1 = k) with
    | none => simp [hfind] at h
    | some e2 =>
      simp only [hfind, Bool.and_eq_true] at h
      rcases List.mem_cons.1 he with rfl | he
      · exact ⟨e2, List.mem_of_find?_eq_some hfind, by simpa using List.find?_some hfind, h.1⟩
      · obtain ⟨e3, h3, h4, h5⟩ := sameEntries_forward rest _ h.2 e he
        exact ⟨e3, (List.mem_filter.1 h3).1, h4, h5⟩

/-- With distinct keys in the second enumeration, every entry of the second has its key in
the first, bound to the same sub-descriptor up to order. -/
theorem sameEntries_backward :
    ∀ (l l2 : List (String × ServiceCommandDescriptor)), sameEntries l l2 = true →
      (l2.map Prod.fst).Nodup →
      ∀ e2 ∈ l2, ∃ e ∈ l, e2.1 = e.1 ∧ sameMaps e.2 e2.2 = true
  | [], l2, h, _, e2, he2 => by
    rw [sameEntries] at h
    simp only [List.isEmpty_iff] at h
    rw [h] at he2
    simp at he2
  | (k, d) :: rest, l2, h, hnd, e2, he2 => by
    rw [sameEntries] at h
    cases hfind : l2.find? (fun e3 => e3.1 = k) with
    | none => simp [hfind] at h
    | some e3 =>
      simp only [hfind, Bool.and_eq_true] at h
      have he3 : e3 ∈ l2 := List.mem_of_find?_eq_some hfind
      have hk3 : e3.1 = k := by simpa using List.find?_some hfind
      by_cases hk : e2.1 = k
      · have : e2 = e3 := by
          have hinj := List.inj_on_of_nodup_map hnd
          exact hinj he2 he3 (hk.trans hk3.symm)
        subst this
        exact ⟨(k, d), List.mem_cons_self _ _, hk, h.1⟩
      · have hnd2 : ((l2.filter (fun e3 => e3.1 ≠ k)).map Prod.fst).Nodup :=
          (List.Nodup.sublist ((List.filter_sublist l2).map Prod.fst) hnd)
        have hmem : e2 ∈ l2.filter (fun e3 => e3.1 ≠ k) := by
          simp [List.mem_filter, he2, hk]
        obtain ⟨e, h1, h2, h3⟩ := sameEntries_backward rest _ h.2 hnd2 e2 hmem
        exact ⟨e, List.mem_cons_of_mem _ h1, h2, h3⟩

/-- The keys of a tree of maps are distinct at its root and in every sub-descriptor. -/
theorem keysDistinct_sub {d : ServiceCommandDescriptor} (h : d.keysDistinct = true) :
    (d.SubCommands.map Prod.fst).Nodup ∧
      ∀ e ∈ d.SubCommands, e.2.keysDistinct = true := by
  cases d with
  | mk s o subs en sh =>
    rw [ServiceCommandDescriptor.keysDistinct] at h
    simp only [Bool.and_eq_true, decide_eq_true_eq] at h
    refine ⟨h.1, ?_⟩
    have h2 := h.2
    simp only [ServiceCommandDescriptor.SubCommands]
    clear h
    induction subs with
    | nil => simp
    | cons x rest ih =>
      obtain ⟨k, sd⟩ := x
      rw [ServiceCommandDescriptor.keysDistinctList] at h2
      simp only [Bool.and_eq_true] at h2
      intro e he
      rcases List.mem_cons.1 he with rfl | he
      · exact h2.1
      · exact ih h2.2 e he

/-- A sub-descriptor is smaller than the descriptor that holds it. -/
theorem sizeOf_sub_lt {d : ServiceCommandDescriptor} {e : String × ServiceCommandDescriptor}
    (he : e ∈ d.SubCommands) : sizeOf e.2 < sizeOf d := by
  cases d with
  | mk s o subs en sh =>
    have h1 := List.sizeOf_lt_of_mem he
    obtain ⟨k, sd⟩ := e
    simp only [Prod.mk.sizeOf_spec, ServiceCommandDescriptor.SubCommands] at h1
    simp only [ServiceCommandDescriptor.mk.sizeOf_spec]
    omega

/-! ### Independence of the enumeration order -/

/-- Entries with the same key and descriptors that are the same tree of maps work on the
same command. -/
theorem subCommandFor_sameMaps (cmd : Command) (k : String)
    {sd sd2 : ServiceCommandDescriptor} (h : sameMaps sd sd2 = true) :
    subCommandFor cmd k sd2 = subCommandFor cmd k sd := by
  obtain ⟨h1, _, _, h4, _⟩ := sameMaps_fields h
  unfold subCommandFor subCommandShort
  rw [h1, h4]

/-- Two enumerations of the same tree of maps, run on the same command, agree on whether
the build ends well, and when it does they leave commands with the same reachable paths. -/
theorem build_same_of_sameMaps (b : Builder) :
    ∀ (n : Nat) (d d2 : ServiceCommandDescriptor), sizeOf d ≤ n →
      d.keysDistinct = true → d2.keysDistinct = true → sameMaps d d2 = true →
      ∀ (cmd : Command) (calls calls2 : List BuildCall),
        ((AddMsgServiceCommands b cmd d calls).out = Outcome.ok ↔
          (AddMsgServiceCommands b cmd d2 calls2).out = Outcome.ok) ∧
        ((AddMsgServiceCommands b cmd d calls).out = Outcome.ok →
          SamePaths (AddMsgServiceCommands b cmd d calls).cmd
            (AddMsgServiceCommands b cmd d2 calls2).cmd) := by
  intro n
  induction n with
  | zero =>
    intro d d2 hsz
    cases d
    simp only [ServiceCommandDescriptor.mk.sizeOf_spec] at hsz
    omega
  | succ n ih =>
    intro d d2 hsz hkd hkd2 hsame cmd calls calls2
    obtain ⟨hsvc, hopt, _, _, hent⟩ := sameMaps_fields hsame
    obtain ⟨hnd, hsubkd⟩ := keysDistinct_sub hkd
    obtain ⟨hnd2, hsubkd2⟩ := keysDistinct_sub hkd2
    -- corresponding entries behave the same
    have hpair : ∀ e ∈ d.SubCommands, ∀ e2 ∈ d2.SubCommands, e2.1 = e.1 →
        sameMaps e.2 e2.2 = true →
        (entryOutcome b cmd e.1 e.2 = Outcome.ok ↔
          entryOutcome b cmd e2.1 e2.2 = Outcome.ok) ∧
        (entryOutcome b cmd e.1 e.2 = Outcome.ok →
          SamePaths (entryCommand b cmd e.1 e.2) (entryCommand b cmd e2.1 e2.2)) ∧
        e.2.EnhanceCustomCommand = e2.2.EnhanceCustomCommand := by
      intro e he e2 he2 hk hs
      have hlt : sizeOf e.2 ≤ n := by
        have := sizeOf_sub_lt he
        omega
      have := ih e.2 e2.2 hlt (hsubkd e he) (hsubkd2 e2 he2) hs
        (subCommandFor cmd e.1 e.2) [] []
      unfold entryOutcome entryCommand
      rw [hk, subCommandFor_sameMaps cmd e.1 hs]
      exact ⟨this.1, this.2, (sameMaps_fields hs).2.2.1⟩
    have hfwd := sameEntries_forward _ _ hent
    have hbwd := sameEntries_backward _ _ hent hnd2
    -- the sub-command loops end well together
    have hsubiff : (subCommandsLoop b cmd d.SubCommands calls).out = Outcome.ok ↔
        (subCommandsLoop b cmd d2.SubCommands calls2).out = Outcome.ok := by
      rw [subCommandsLoop_ok_iff b _ cmd calls hnd, subCommandsLoop_ok_iff b _ cmd calls2 hnd2]
      constructor
      · intro hall e2 he2
        obtain ⟨e, he, hk, hs⟩ := hbwd e2 he2
        exact ((hpair e he e2 he2 hk hs).1).1 (hall e he)
      · intro hall e he
        obtain ⟨e2, he2, hk, hs⟩ := hfwd e he
        exact ((hpair e he e2 he2 hk hs).1).2 (hall e2 he2)
    by_cases hok : (subCommandsLoop b cmd d.SubCommands calls).out = Outcome.ok
    · have hok2 := hsubiff.1 hok
      have hall := (subCommandsLoop_ok_iff b _ cmd calls hnd).1 hok
      have hall2 := (subCommandsLoop_ok_iff b _ cmd calls2 hnd2).1 hok2
      have hsp : SamePaths (subCommandsLoop b cmd d.SubCommands calls).cmd
          (subCommandsLoop b cmd d2.SubCommands calls2).cmd := by
        rw [samePaths_iff]
        intro nm p
        rw [subCommandsLoop_paths b _ cmd calls hnd hok nm p,
          subCommandsLoop_paths b _ cmd calls2 hnd2 hok2 nm p]
        constructor
        · rintro (h1 | ⟨e, he, hc, hn, hp⟩)
          · exact Or.inl h1
          · obtain ⟨e2, he2, hk, hs⟩ := hfwd e he
            obtain ⟨_, hpaths, hen⟩ := hpair e he e2 he2 hk hs
            refine Or.inr ⟨e2, he2, ?_, hk.trans hn, ?_⟩
            · rw [hk, ← hen]
              exact hc
            · rw [← hpaths (hall e he) p]
              exact hp
        · rintro (h1 | ⟨e2, he2, hc, hn, hp⟩)
          · exact Or.inl h1
          · obtain ⟨e, he, hk, hs⟩ := hbwd e2 he2
            obtain ⟨_, hpaths, hen⟩ := hpair e he e2 he2 hk hs
            refine Or.inr ⟨e, he, ?_, hk.symm.trans hn, ?_⟩
            · rw [← hk, hen]
              exact hc
            · rw [hpaths (hall e he) p]
              exact hp
      rcases hs1 : subCommandsLoop b cmd d.SubCommands calls with ⟨c1, l1, o1⟩
      rcases hs2 : subCommandsLoop b cmd d2.SubCommands calls2 with ⟨c2, l2, o2⟩
      rw [hs1] at hok hsp
      rw [hs2] at hok2 hsp
      simp only at hok hok2 hsp
      subst hok hok2
      rw [AddMsgServiceCommands_of_sub_ok b cmd d calls c1 l1 hs1,
        AddMsgServiceCommands_of_sub_ok b cmd d2 calls2 c2 l2 hs2, ← hsvc, ← hopt]
      obtain ⟨h1, h2⟩ := serviceCommands_samePaths b d.Service d.Options c1 c2 l1 l2 hsp
      exact ⟨by rw [h2], fun _ => h1⟩
    · have hok2 : ¬ (subCommandsLoop b cmd d2.SubCommands calls2).out = Outcome.ok :=
        fun h => hok (hsubiff.2 h)
      rw [AddMsgServiceCommands_of_sub_not_ok b cmd d calls hok,
        AddMsgServiceCommands_of_sub_not_ok b cmd d2 calls2 hok2]
      exact ⟨⟨fun h => absurd h hok, fun h => absurd h hok2⟩, fun h => absurd h hok⟩

/-- C8: tree building does not depend on the order in which the `SubCommands` maps are
enumerated. For two descriptors that are the same tree of maps (distinct keys at every
level) enumerated in possibly different orders, the runs of `AddMsgServiceCommands` on the
same parent agree on whether the build succeeds, and when it succeeds the two resulting
trees have the same set of reachable command paths. -/
theorem build_independent_of_map_order (b : Builder) (cmd : Command)
    (d d2 : ServiceCommandDescriptor) (calls : List BuildCall)
    (hkeys : d.keysDistinct = true) (hkeys2 : d2.keysDistinct = true)
    (hsame : sameMaps d d2 = true) :
    ((AddMsgServiceCommands b cmd d calls).out = Outcome.ok ↔
      (AddMsgServiceCommands b cmd d2 calls).out = Outcome.ok) ∧
    ((AddMsgServiceCommands b cmd d calls).out = Outcome.ok →
      ∀ p : List String,
        (AddMsgServiceCommands b cmd d calls).cmd.hasPath p =
          (AddMsgServiceCommands b cmd d2 calls).cmd.hasPath p) :=
  build_same_of_sameMaps b (sizeOf d) d d2 (Nat.le_refl _) hkeys hkeys2 hsame cmd calls calls

/-- Witness of `build_independent_of_map_order`: the example descriptor enumerated with
`bank` before `gov`, and with `gov` before `bank` and `legacy` before `params`. -/
theorem build_independent_of_map_order_witness :
    ((AddMsgServiceCommands exampleBuilder exampleTx exampleDescriptor []).out = Outcome.ok ↔
      (AddMsgServiceCommands exampleBuilder exampleTx exampleDescriptorReordered []).out =
        Outcome.ok) ∧
    ((AddMsgServiceCommands exampleBuilder exampleTx exampleDescriptor []).out = Outcome.ok →
      ∀ p : List String,
        (AddMsgServiceCommands exampleBuilder exampleTx exampleDescriptor []).cmd.hasPath p =
          (AddMsgServiceCommands exampleBuilder exampleTx exampleDescriptorReordered
            []).cmd.hasPath p) :=
  build_independent_of_map_order exampleBuilder exampleTx exampleDescriptor
    exampleDescriptorReordered [] (by decide) (by decide) (by decide)

end AutoCLI
